import Mathlib

/-!
Verification of the substance structured-document editing engine against its
natural-language specification.  The JavaScript sources are shallowly embedded:
document state is explicit, text is `List Char`, JS numbers are `Int`, thrown
exceptions are `Except` errors.  Each embedded definition names the source file
and lines it is translated from; helpers that are not part of the provided
sources are modelled from the specification and say so in their doc comment.
-/

namespace Substance

/-- A thrown JS exception: either a `TypeError` (e.g. a member access on
`undefined`) or an `Error` carrying a message. -/
inductive JsError where
  | typeError
  | jsError (msg : String)
deriving Repr, DecidableEq

/-! ## Transaction and change recording (src/unnamed/part_000)

The transaction machinery is generic over the staged document; it is embedded
here over a concrete document whose content is a character list and whose
primitive operations are invertible text insertions and removals, which is all
the rollback/nesting claims observe.  Selection bookkeeping (`_before`,
`_after`, `setSelection`) is carried by the source but inspected by no claim,
so it is not modelled. -/

/-- A primitive, invertible operation recorded on the staged document. -/
inductive TOp where
  | insert (pos : Nat) (text : List Char)
  | remove (pos : Nat) (text : List Char)
deriving Repr, DecidableEq

/-- Apply a primitive operation to document content. -/
def applyTOp (content : List Char) : TOp → List Char
  | .insert pos text => content.take pos ++ text ++ content.drop pos
  | .remove pos text => content.take pos ++ content.drop (pos + text.length)

/-- The computable inverse of a primitive operation (`op.invert()`). -/
def TOp.invert : TOp → TOp
  | .insert pos text => .remove pos text
  | .remove pos text => .insert pos text

/-- The staged document: its content and the operation list `_ops` that
accumulates while a transformation mutates the stage. -/
structure Stage where
  content : List Char
  _ops : List TOp
deriving Repr, DecidableEq

/-- `stage._applyOp(op)`: apply an operation without recording it. -/
def Stage.applyOp (st : Stage) (op : TOp) : Stage :=
  { content := applyTOp st.content op, _ops := st._ops }

/-- A mutation performed through the transaction: the operation is applied to
the staged content and recorded on `stage._ops`. -/
def Stage.recordOp (st : Stage) (op : TOp) : Stage :=
  { content := applyTOp st.content op, _ops := st._ops ++ [op] }

/-- part_000: the transaction's fields, as assigned by the constructor
(lines 27-38).  The constructor sets `this.master`, `this.stage` (line 32) and
`this._isTransacting`; no `_stage` member is ever assigned anywhere in the
class, so a read of `this._stage` yields `undefined`; the field below records
that fact as an `Option` that the constructor leaves at `none`. -/
structure Transaction where
  master : Stage
  stage : Stage
  _isTransacting : Bool
  _stage : Option Stage
deriving Repr, DecidableEq

/-- part_000 lines 27-38: construct a transaction over a document. -/
def Transaction.new (doc : List Char) : Transaction :=
  { master := { content := doc, _ops := [] }
    stage := { content := doc, _ops := [] }
    _isTransacting := false
    _stage := none }

/-- part_000 lines 79-106, the unit of change produced by a transaction. -/
structure DocumentChange where
  ops : List TOp
deriving Repr, DecidableEq

/-- part_000 lines 118-125.  The method reads `this._stage._ops` (line 120),
but the constructor only ever defines `this.stage` (line 32): `this._stage` is
`undefined`, so the member access `._ops` throws a `TypeError` before any
inverse is applied.  The `some` branch below is the behaviour the loop body
would have if `_stage` were ever set (apply the inverses of the recorded ops to
`stage`, last first, then clear the list); it is dead code for transactions
built by `Transaction.new`. -/
def Transaction._rollback (t : Transaction) : Except JsError Transaction :=
  match t._stage with
  | none => .error .typeError
  | some st =>
      let stage := st._ops.reverse.foldl (fun s op => s.applyOp op.invert) t.stage
      .ok { t with stage := { stage with _ops := [] } }

/-- part_000 lines 79-106.  The transformation function is modelled by the list
of operations it records on the stage, in order, followed by a flag saying
whether it then terminates abnormally (throws).  The result pairs the
transaction state control returns with (JS objects are mutated in place) with
either the produced change or the exception that propagated.  When the
transformation throws, `hasFinished` is false and the `finally` block calls
`_rollback()`; if that call itself throws, the new exception replaces the
original one and propagates immediately, skipping `this._isTransacting = false`
(line 103). -/
def Transaction._recordChange (t : Transaction) (tfOps : List TOp) (tfThrows : Bool) :
    Transaction × Except JsError (Option DocumentChange) :=
  if t._isTransacting then
    (t, .error (.jsError "Nested transactions are not supported."))
  else
    -- this._isTransacting = true; this._reset() clears the staged op list
    let t1 : Transaction := { t with _isTransacting := true, stage := { t.stage with _ops := [] } }
    -- transformation(this, ...) records its operations on the stage
    let t2 : Transaction := { t1 with stage := tfOps.foldl Stage.recordOp t1.stage }
    if tfThrows then
      match t2._rollback with
      | .error e => (t2, .error e)
      | .ok t' => ({ t' with _isTransacting := false },
          .error (.jsError "transformation terminated abnormally"))
    else
      let change := if t2.stage._ops.length > 0 then some { ops := t2.stage._ops } else none
      ({ t2 with _isTransacting := false }, .ok change)

/-- Claim C1, evaluated at the failing input.  The claim says a throwing
transformation leaves the staged document's content and operation list exactly
as before the transaction; in the code, `_rollback` reads `this._stage._ops`
while only `this.stage` exists, so rollback throws a `TypeError` instead: the
partially applied operation stays applied, the op list keeps the recorded
operation, and `_isTransacting` is never reset. -/
theorem C1_rollback_bug_eval :
    (Transaction._recordChange (Transaction.new "abc".toList)
        [TOp.insert 3 "X".toList] true).2 = .error .typeError ∧
    (Transaction._recordChange (Transaction.new "abc".toList)
        [TOp.insert 3 "X".toList] true).1.stage.content = "abcX".toList ∧
    (Transaction._recordChange (Transaction.new "abc".toList)
        [TOp.insert 3 "X".toList] true).1.stage._ops = [TOp.insert 3 "X".toList] ∧
    (Transaction._recordChange (Transaction.new "abc".toList)
        [TOp.insert 3 "X".toList] true).1._isTransacting = true :=
  ⟨rfl, rfl, rfl, rfl⟩

/-- Claim C8: entering `_recordChange` while `_isTransacting` is true raises
the error "Nested transactions are not supported." synchronously and records
no operation (the transaction state is returned untouched). -/
theorem C8_nested_transaction (t : Transaction) (tfOps : List TOp) (tfThrows : Bool)
    (h : t._isTransacting = true) :
    t._recordChange tfOps tfThrows =
      (t, .error (.jsError "Nested transactions are not supported.")) := by
  unfold Transaction._recordChange
  simp [h]

/-- Witness for C8 at a concrete transacting transaction. -/
theorem C8_nested_transaction_witness :
    ({ Transaction.new [] with _isTransacting := true } : Transaction)._isTransacting = true ∧
    ({ Transaction.new [] with _isTransacting := true } : Transaction)._recordChange [] false =
      ({ Transaction.new [] with _isTransacting := true },
        .error (.jsError "Nested transactions are not supported.")) :=
  ⟨rfl, C8_nested_transaction _ [] false rfl⟩

/-! ## Document model for the editing behaviours

The editing behaviours operate on a document of typed nodes (text nodes,
containers, and nodes with no specialized behaviour), annotations anchored on
text properties, and a log of the primitive operations recorded through the
transaction.  Offsets are `Int` (JS numbers); text is `List Char`; a property
path `[nodeId, 'content']` is a `List String`. -/

/-- A coordinate: a property or node path plus an offset. -/
structure Coordinate where
  path : List String
  offset : Int
deriving Repr, DecidableEq

/-- `coor.getNodeId()`: the node id is the head of the path. -/
def Coordinate.getNodeId (c : Coordinate) : String := c.path.headD ""

/-- A selection as produced by `tx.createSelection` / the selection helpers. -/
inductive Selection where
  | property (path : List String) (startOffset endOffset : Int) (containerId : Option String)
  | nodeSel (nodeId : String) (containerId : String) (mode : String)
  | nullSel
deriving Repr, DecidableEq

/-- An annotation node: anchors on one text property, plus the capability flags
read by the shift policy (`anno._isInlineNode`, `anno.constructor.autoExpandRight`). -/
structure Anno where
  id : String
  path : List String
  startOffset : Int
  endOffset : Int
  isInlineNode : Bool
  autoExpandRight : Bool
deriving Repr, DecidableEq

/-- A document node: a text node (id, type, content), a container (id, ordered
child ids), or a node of a type with no specialized editing behaviour. -/
inductive DNode where
  | text (id ty : String) (content : List Char)
  | container (id : String) (nodes : List String)
  | other (id ty : String)
deriving Repr, DecidableEq

/-- `node.id`. -/
def DNode.nid : DNode → String
  | .text i _ _ => i
  | .container i _ => i
  | .other i _ => i

/-- `node.type`. -/
def DNode.nty : DNode → String
  | .text _ ty _ => ty
  | .container _ _ => "container"
  | .other _ ty => ty

/-- `node.isEmpty()` for text nodes. -/
def DNode.isEmpty : DNode → Bool
  | .text _ _ c => c.isEmpty
  | _ => false

/-- `node.getLength()` for text nodes. -/
def DNode.getLength : DNode → Int
  | .text _ _ c => c.length
  | _ => 0

/-- `node.getText()` for text nodes. -/
def DNode.getText : DNode → List Char
  | .text _ _ c => c
  | _ => []

/-- `node.getPath()` / `node.getTextPath()` for text nodes. -/
def DNode.getPath (n : DNode) : List String := [n.nid, "content"]

/-- A primitive operation recorded on the transaction while a behaviour runs. -/
inductive ROp where
  | textInsert (path : List String) (start : Int) (text : List Char)
  | textRemove (path : List String) (start stop : Int)
  | shiftAnchor (annoId : String) (anchor : String) (value : Int)
  | removeAnno (annoId : String)
  | createNode (id : String)
  | hideOp (containerId : String) (pos : Nat)
  | showOp (containerId : String) (pos : Nat) (nodeId : String)
  | deleteNode (id : String)
deriving Repr, DecidableEq

/-- Whether a recorded operation is a text-range deletion. -/
def ROp.isTextRemove : ROp → Bool
  | .textRemove _ _ _ => true
  | _ => false

/-- The staged document the behaviours mutate, with the recorded op log. -/
structure Doc where
  nodes : List DNode
  annos : List Anno
  nextId : Nat
  ops : List ROp
deriving Repr, DecidableEq

/-- `tx.get(id)`. -/
def Doc.getNode (d : Doc) (id : String) : Option DNode :=
  d.nodes.find? (fun n => n.nid == id)

/-- `tx.get(path)` for a text property path `[id, 'content']`. -/
def Doc.getText (d : Doc) (path : List String) : List Char :=
  match d.getNode (path.headD "") with
  | some (.text _ _ c) => c
  | _ => []

/-- The node updater used by `Doc.setText`: rewrite the content of the text
node addressed by `path`, leave every other node alone. -/
def setTextFn (path : List String) (c : List Char) : DNode → DNode
  | .text i ty c0 => if i == path.headD "" then .text i ty c else .text i ty c0
  | x => x

/-- Replace the content of the text node addressed by `path`. -/
def Doc.setText (d : Doc) (path : List String) (c : List Char) : Doc :=
  { d with nodes := d.nodes.map (setTextFn path c) }

/-- Insert `t` at position `pos` of a character list (JS string splice). -/
def txtInsert (s : List Char) (pos : Int) (t : List Char) : List Char :=
  s.take pos.toNat ++ t ++ s.drop pos.toNat

/-- Remove the range `[a, b)` from a character list. -/
def txtDelete (s : List Char) (a b : Int) : List Char :=
  s.take a.toNat ++ s.drop b.toNat

/-- `tx.update(path, { type: 'insert', start, text })` on a text property. -/
def Doc.updateTextInsert (d : Doc) (path : List String) (start : Int) (text : List Char) : Doc :=
  let d' := d.setText path (txtInsert (d.getText path) start text)
  { d' with ops := d'.ops ++ [ROp.textInsert path start text] }

/-- `tx.update(path, { type: 'delete', start, end })` on a text property. -/
def Doc.updateTextRemove (d : Doc) (path : List String) (start stop : Int) : Doc :=
  let d' := d.setText path (txtDelete (d.getText path) start stop)
  { d' with ops := d'.ops ++ [ROp.textRemove path start stop] }

/-- `tx.getAnnotations(path)`: the annotations anchored on `path`. -/
def Doc.getAnnotations (d : Doc) (path : List String) : List Anno :=
  d.annos.filter (fun a => a.path == path)

/-- `tx.update([anno.id, 'start'], { type: 'shift', value })`. -/
def Doc.shiftAnnoStart (d : Doc) (annoId : String) (v : Int) : Doc :=
  { d with
    annos := d.annos.map (fun a =>
      if a.id == annoId then { a with startOffset := a.startOffset + v } else a)
    ops := d.ops ++ [ROp.shiftAnchor annoId "start" v] }

/-- `tx.update([anno.id, 'end'], { type: 'shift', value })`. -/
def Doc.shiftAnnoEnd (d : Doc) (annoId : String) (v : Int) : Doc :=
  { d with
    annos := d.annos.map (fun a =>
      if a.id == annoId then { a with endOffset := a.endOffset + v } else a)
    ops := d.ops ++ [ROp.shiftAnchor annoId "end" v] }

/-- `tx.delete(anno.id)`: remove an annotation node. -/
def Doc.removeAnno (d : Doc) (annoId : String) : Doc :=
  { d with
    annos := d.annos.filter (fun a => a.id != annoId)
    ops := d.ops ++ [ROp.removeAnno annoId] }

/-! ## NodeEditing (src/model/NodeEditing.js) -/

/-- model/NodeEditing.js lines 217-264: the annotation-shift policy applied to
one annotation anchored on the edited path.  `anno` carries the offsets the
annotation had when the update loop started (the JS `forEach` closure reads the
snapshot captured by `getAnnotations`). -/
def replaceTextAnnoStep (start stop : Coordinate) (text : List Char) (typeover : Bool)
    (d : Doc) (anno : Anno) : Doc :=
  let len : Int := text.length
  if anno.endOffset < start.offset then
    -- annotation is before the altered area
    d
  else if anno.startOffset ≥ stop.offset then
    -- annotation is after the altered area
    let shift := start.offset - stop.offset + len
    (d.shiftAnnoStart anno.id shift).shiftAnnoEnd anno.id shift
  else if anno.startOffset ≥ start.offset ∧
      (anno.endOffset < stop.offset ∨ (anno.endOffset ≤ stop.offset ∧ anno.isInlineNode = true)) then
    -- annotation is deleted
    d.removeAnno anno.id
  else if anno.startOffset ≥ start.offset ∧ anno.endOffset ≥ stop.offset then
    -- annotation starts within the altered area, ends past it
    let d1 := if anno.startOffset > start.offset ∨ typeover = false then
        d.shiftAnnoStart anno.id (start.offset - anno.startOffset + len)
      else d
    d1.shiftAnnoEnd anno.id (start.offset - stop.offset + len)
  else if anno.startOffset < start.offset ∧ anno.endOffset < stop.offset then
    -- annotation starts before the altered area and ends within: it expands
    d.shiftAnnoEnd anno.id (start.offset - anno.endOffset + len)
  else if anno.endOffset = start.offset ∧ anno.autoExpandRight = false then
    -- skip
    d
  else if anno.startOffset < start.offset ∧ anno.endOffset ≥ stop.offset then
    -- annotation starts before the altered area and ends past it
    if anno.isInlineNode = true then d
    else d.shiftAnnoEnd anno.id (start.offset - stop.offset + len)
  else
    -- console.warn('TODO: handle annotation update case.')
    d

/-- model/NodeEditing.js lines 205-271: the canonical text-edit algorithm.
If the range is not collapsed the covered text is deleted first (marking
`typeover`), then `text` is inserted at `start.offset`; every annotation on the
path is then adjusted; returns a collapsed cursor after the inserted text.
(`node` is a parameter of the source method but is never read by it.) -/
def NodeEditing.replaceText (d : Doc) (node : DNode) (start stop : Coordinate)
    (text : List Char) : Doc × Selection :=
  let path := start.path
  let typeover : Bool := start.offset != stop.offset
  let d1 := if start.offset ≠ stop.offset then
      d.updateTextRemove path start.offset stop.offset
    else d
  let d2 := d1.updateTextInsert path start.offset text
  let annos := d2.getAnnotations path
  let d3 := annos.foldl (replaceTextAnnoStep start stop text typeover) d2
  (d3, .property start.path (start.offset + text.length) (start.offset + text.length) none)

/-- model/NodeEditing.js lines 189-191: insertText delegates to replaceText on
a collapsed range. -/
def NodeEditing.insertText (d : Doc) (node : DNode) (coor : Coordinate)
    (text : List Char) : Doc × Selection :=
  NodeEditing.replaceText d node coor coor text

/-! ### Claim C2: the "hello world" replaceText scenario -/

/-- The concrete document of the spec scenario for claim C2: a text node with
content "hello world" carrying one annotation with bounds [0,5). -/
def helloDoc : Doc :=
  { nodes := [DNode.text "t1" "paragraph" "hello world".toList]
    annos := [{ id := "a1", path := ["t1", "content"], startOffset := 0, endOffset := 5,
                isInlineNode := false, autoExpandRight := false }]
    nextId := 0
    ops := [] }

/-- `replaceText(start=5, end=6, text="-")` on the scenario document. -/
def helloReplaced : Doc × Selection :=
  NodeEditing.replaceText helloDoc (DNode.text "t1" "paragraph" "hello world".toList)
    { path := ["t1", "content"], offset := 5 } { path := ["t1", "content"], offset := 6 }
    "-".toList

/-- Claim C2 is false on the code at its own scenario: the text does become
"hello-world", but the annotation does not stay at [0,5).  The strict
before-range test `anno.end.offset < start.offset` (5 < 5) fails, so the
"starts before, ends within" expansion branch fires and the end anchor shifts
by `start.offset - anno.end.offset + text.length = 1`. -/
theorem C2_counterexample :
    helloReplaced.1.getText ["t1", "content"] = "hello-world".toList ∧
    ¬ (helloReplaced.1.annos.map (fun a => (a.id, a.startOffset, a.endOffset)) =
        [("a1", (0 : Int), (5 : Int))]) := by
  decide

/-- Claim C2 as amended: replacing the space expands the annotation to [0,6)
(end anchor shifted by +1 by the expansion case), the text becomes
"hello-world", and the returned cursor sits after the inserted text at
offset 6. -/
theorem C2_amended :
    helloReplaced.1.getText ["t1", "content"] = "hello-world".toList ∧
    helloReplaced.1.annos.map (fun a => (a.id, a.startOffset, a.endOffset)) =
      [("a1", (0 : Int), (6 : Int))] ∧
    helloReplaced.2 = .property ["t1", "content"] 6 6 none := by
  decide

/-! ### Claim C10: insertText is the collapsed case of replaceText -/

/-- A start-anchor shift records no text-range deletion. -/
theorem shiftAnnoStart_no_textRemove (d : Doc) (i : String) (v : Int) :
    ((d.shiftAnnoStart i v).ops.filter ROp.isTextRemove) = d.ops.filter ROp.isTextRemove := by
  simp [Doc.shiftAnnoStart, List.filter_append, ROp.isTextRemove]

/-- An end-anchor shift records no text-range deletion. -/
theorem shiftAnnoEnd_no_textRemove (d : Doc) (i : String) (v : Int) :
    ((d.shiftAnnoEnd i v).ops.filter ROp.isTextRemove) = d.ops.filter ROp.isTextRemove := by
  simp [Doc.shiftAnnoEnd, List.filter_append, ROp.isTextRemove]

/-- Deleting an annotation records no text-range deletion. -/
theorem removeAnno_no_textRemove (d : Doc) (i : String) :
    ((d.removeAnno i).ops.filter ROp.isTextRemove) = d.ops.filter ROp.isTextRemove := by
  simp [Doc.removeAnno, List.filter_append, ROp.isTextRemove]

/-- One annotation-shift step records no text-range deletion. -/
theorem annoStep_no_textRemove (start stop : Coordinate) (text : List Char) (tp : Bool)
    (d : Doc) (a : Anno) :
    ((replaceTextAnnoStep start stop text tp d a).ops.filter ROp.isTextRemove) =
      d.ops.filter ROp.isTextRemove := by
  unfold replaceTextAnnoStep
  split_ifs <;>
    simp only [shiftAnnoStart_no_textRemove, shiftAnnoEnd_no_textRemove,
      removeAnno_no_textRemove]

/-- The whole annotation-update loop records no text-range deletion. -/
theorem annoFold_no_textRemove (start stop : Coordinate) (text : List Char) (tp : Bool) :
    ∀ (annos : List Anno) (d : Doc),
      (((annos.foldl (replaceTextAnnoStep start stop text tp) d).ops.filter ROp.isTextRemove)) =
        d.ops.filter ROp.isTextRemove := by
  intro annos
  induction annos with
  | nil => intro d; rfl
  | cons a l ih =>
      intro d
      rw [List.foldl_cons, ih, annoStep_no_textRemove]

/-- Claim C10: `insertText(tx, node, coor, text)` performs exactly the same
mutations and returns the same selection as `replaceText(tx, node, coor, coor,
text)` — the source delegates directly — and in this collapsed case no range is
deleted: no text-range deletion operation is recorded. -/
theorem C10_insertText_is_replaceText (d : Doc) (node : DNode) (coor : Coordinate)
    (text : List Char) :
    NodeEditing.insertText d node coor text = NodeEditing.replaceText d node coor coor text ∧
    (NodeEditing.insertText d node coor text).1.ops.filter ROp.isTextRemove =
      d.ops.filter ROp.isTextRemove := by
  refine ⟨rfl, ?_⟩
  have h : (if coor.offset ≠ coor.offset then
      d.updateTextRemove coor.path coor.offset coor.offset else d) = d := by simp
  unfold NodeEditing.insertText NodeEditing.replaceText
  simp only [h]
  rw [annoFold_no_textRemove]
  simp [Doc.updateTextInsert, Doc.setText, List.filter_append, ROp.isTextRemove]

/-! ## TextNodeEditing (src/unnamed/part_001) and the helpers it calls -/

/-- The schema's default text type (`tx.getSchema().getDefaultTextType()`). -/
def defaultTextType : String := "paragraph"

/-- `tx.create(nodeData)` for a text node whose `id` is left undefined: a fresh
id is generated, the node is added to the document, and a create operation is
recorded.  Fresh ids are drawn from the document's id counter (standing in for
`uuid()`). -/
def Doc.createTextNode (d : Doc) (ty : String) (content : List Char) : Doc × String :=
  let id := "n" ++ toString d.nextId
  ({ d with
      nodes := d.nodes ++ [DNode.text id ty content]
      nextId := d.nextId + 1
      ops := d.ops ++ [ROp.createNode id] }, id)

/-- `tx.createDefaultTextNode(text)`: a fresh node of the schema's default text
type. -/
def Doc.createDefaultTextNode (d : Doc) (content : List Char) : Doc × String :=
  d.createTextNode defaultTextType content

/-- Modelled from the spec: `annotationHelpers.transferAnnotations` is not
among the provided sources (src/ holds only its callers).  Spec §4.3: a split
"transfers annotations anchored at/after the split offset to the new node at
offset 0", and a text merge appends the source's "trailing annotations" at the
join point: every annotation on `path` whose start anchor is at/after `offset`
is moved to `newPath` with both anchors shifted by `newOffset - offset`. -/
def transferAnnotations (d : Doc) (path : List String) (offset : Int)
    (newPath : List String) (newOffset : Int) : Doc :=
  { d with annos := d.annos.map (fun a =>
      if a.path = path ∧ a.startOffset ≥ offset then
        { a with
          path := newPath
          startOffset := a.startOffset - offset + newOffset
          endOffset := a.endOffset - offset + newOffset }
      else a) }

/-- Modelled from the spec: `documentHelpers.deleteNode` is not among the
provided sources.  Spec §3: nodes are destroyed via operations inside a
transaction; the node record is removed from the document (attached-annotation
cleanup is not modelled — no claim inspects annotations of a deleted node). -/
def documentHelpers.deleteNode (d : Doc) (nodeId : String) : Doc :=
  { d with
    nodes := d.nodes.filter (fun n => n.nid != nodeId)
    ops := d.ops ++ [ROp.deleteNode nodeId] }

/-- Modelled from the spec: `documentHelpers.deleteTextRange` is not among the
provided sources.  Spec §4.1/§4.3: it "deletes the text range"; "if one bound
is absent it defaults to the node's start (offset 0) or end (offset = length)";
it "fails if both bounds are absent".  Only the content effect is modelled; the
associated annotation adjustments are not, since no claim here depends on
them. -/
def documentHelpers.deleteTextRange (d : Doc) (start stop : Option Coordinate) : Doc :=
  match start, stop with
  | none, none => d
  | _, _ =>
    let path := match start with
      | some s => s.path
      | none => (stop.getD { path := [], offset := 0 }).path
    let content := d.getText path
    let a := match start with | some s => s.offset | none => 0
    let b := match stop with | some e => e.offset | none => (content.length : Int)
    d.updateTextRemove path a b

/-- The `{before, after, replace, selection}` split contract (spec §4.1);
node-valued fields carry the node's id. -/
structure SplitRes where
  before : Option String := none
  after : Option String := none
  replaceWith : Option String := none
  sel : Option Selection := none
deriving Repr, DecidableEq

/-- src/unnamed/part_001 lines 7-33 (TextNodeEditing.splitNode).  At offset 0 an
empty node of the same type is returned as `before`.  Otherwise a new node is
created holding the suffix text (with the schema's default text type if the
split is exactly at the end, the node's own type otherwise), annotations
anchored at/after the split offset are transferred to it at offset 0, the
original property is truncated, and the new node is returned as `after`. -/
def TextNodeEditing.splitNode (d : Doc) (node : DNode) (coor : Coordinate) :
    Doc × SplitRes :=
  if coor.offset = 0 then
    let r := d.createTextNode node.nty []
    (r.1, { before := some r.2 })
  else
    let text := d.getText coor.path
    -- newNode = Object.assign(node.toJSON(), {id: undefined, content: text.substring(coor.offset)})
    let newContent := text.drop coor.offset.toNat
    let newTy := if coor.offset = (text.length : Int) then defaultTextType else node.nty
    let r := d.createTextNode newTy newContent
    let d2 := transferAnnotations r.1 coor.path coor.offset [r.2, "content"] 0
    let d3 := d2.updateTextRemove coor.path coor.offset (text.length : Int)
    (d3, { after := some r.2 })

/-- src/unnamed/part_001 lines 35-48 (TextNodeEditing.deleteRange).  `start` and
`end` may each be absent; `(start || end)` must lie on the node passed, else
the method logs an error and returns null.  After the shared helper deletes the
range, the source reassigns `start = start || end` and returns a property
cursor at `start.path` / `start.offset || 0` — which is `end.offset` whenever
the start bound was absent. -/
def TextNodeEditing.deleteRange (d : Doc) (node : DNode) (start stop : Option Coordinate) :
    Doc × Option Selection :=
  let se := match start with | some s => some s | none => stop
  match se with
  | none => (d, none)
  | some c =>
    if c.path.headD "" ≠ node.nid then
      -- console.error('TextNodeEditing#deleteRange: range to delete must be on node passed')
      (d, none)
    else
      let d1 := documentHelpers.deleteTextRange d start stop
      -- `start.offset || 0` is numerically `start.offset` after the reassignment
      (d1, some (.property c.path c.offset c.offset none))

/-! ### Basic lemmas about document lookups -/

/-- `setTextFn` never changes a node's id. -/
theorem setTextFn_nid (p : List String) (c : List Char) (n : DNode) :
    (setTextFn p c n).nid = n.nid := by
  cases n with
  | text i ty c0 =>
      simp only [setTextFn]
      split <;> rfl
  | container i ns => rfl
  | other i ty => rfl

/-- Looking a node up after `setText` applies the updater to the lookup result. -/
theorem getNode_setText (d : Doc) (p : List String) (c : List Char) (x : String) :
    (d.setText p c).getNode x = (d.getNode x).map (setTextFn p c) := by
  unfold Doc.setText Doc.getNode
  rw [List.find?_map]
  have hp : ((fun n : DNode => n.nid == x) ∘ setTextFn p c) = (fun n => n.nid == x) := by
    funext n
    simp [Function.comp, setTextFn_nid]
  rw [hp]

/-- `setText` leaves nodes with a different id untouched. -/
theorem getNode_setText_ne (d : Doc) (p : List String) (c : List Char) (x : String)
    (hx : x ≠ p.headD "") :
    (d.setText p c).getNode x = d.getNode x := by
  rw [getNode_setText]
  cases h : d.getNode x with
  | none => rfl
  | some n =>
      have h' : d.nodes.find? (fun m => m.nid == x) = some n := h
      have hnid := List.find?_some h'
      have : n.nid = x := by simpa using hnid
      cases n with
      | text i ty c0 =>
          have hix : i = x := this
          have hne : (i == p.headD "") = false := by
            rw [hix]
            exact beq_eq_false_iff_ne.mpr hx
          simp only [Option.map_some', setTextFn, hne, Bool.false_eq_true, if_false]
      | container i ns => rfl
      | other i ty => rfl

/-- `setText` rewrites the content of the addressed text node. -/
theorem getText_setText_found (d : Doc) (p : List String) (c : List Char)
    (i ty : String) (c0 : List Char)
    (h : d.getNode (p.headD "") = some (DNode.text i ty c0)) :
    (d.setText p c).getText p = c := by
  have h' : d.nodes.find? (fun m => m.nid == p.headD "") = some (DNode.text i ty c0) := h
  have hnid := List.find?_some h'
  have hi : i = p.headD "" := by simpa [DNode.nid] using hnid
  unfold Doc.getText
  rw [getNode_setText, h]
  simp [setTextFn, hi]

/-- A node found by `getNode` is a member of the node list. -/
theorem mem_of_getNode (d : Doc) (x : String) (n : DNode) (h : d.getNode x = some n) :
    n ∈ d.nodes :=
  List.mem_of_find?_eq_some h

/-- Looking up an untouched node id after `createTextNode`. -/
theorem getNode_createTextNode_old (d : Doc) (ty : String) (c : List Char) (x : String)
    (n : DNode) (h : d.getNode x = some n) :
    ((d.createTextNode ty c).1).getNode x = some n := by
  unfold Doc.createTextNode Doc.getNode
  unfold Doc.getNode at h
  simp [List.find?_append, h]

/-- Looking up the freshly created node after `createTextNode`. -/
theorem getNode_createTextNode_new (d : Doc) (ty : String) (c : List Char)
    (hfresh : ∀ n ∈ d.nodes, n.nid ≠ "n" ++ toString d.nextId) :
    ((d.createTextNode ty c).1).getNode ("n" ++ toString d.nextId) =
      some (DNode.text ("n" ++ toString d.nextId) ty c) := by
  have hnone : d.nodes.find? (fun n => n.nid == "n" ++ toString d.nextId) = none := by
    rw [List.find?_eq_none]
    intro n hmem
    simpa using hfresh n hmem
  show (d.nodes ++ [DNode.text ("n" ++ toString d.nextId) ty c]).find?
      (fun n => n.nid == "n" ++ toString d.nextId) =
    some (DNode.text ("n" ++ toString d.nextId) ty c)
  rw [List.find?_append, hnone, Option.none_or]
  simp [DNode.nid]

/-- `transferAnnotations` never touches nodes. -/
theorem getNode_transferAnnotations (d : Doc) (p : List String) (o : Int)
    (np : List String) (no : Int) (x : String) :
    (transferAnnotations d p o np no).getNode x = d.getNode x := rfl

/-- Reading a text property through a successful node lookup. -/
theorem getText_eq_of_getNode (d : Doc) (p : List String) (i ty : String) (c : List Char)
    (h : d.getNode (p.headD "") = some (DNode.text i ty c)) :
    d.getText p = c := by
  unfold Doc.getText
  rw [h]

/-- `updateTextRemove` looks nodes up exactly as the underlying `setText`. -/
theorem getNode_updateTextRemove (d : Doc) (p : List String) (a b : Int) (x : String) :
    (d.updateTextRemove p a b).getNode x =
      (d.setText p (txtDelete (d.getText p) a b)).getNode x := rfl

/-- `updateTextRemove` reads text exactly as the underlying `setText`. -/
theorem getText_updateTextRemove (d : Doc) (p : List String) (a b : Int) (q : List String) :
    (d.updateTextRemove p a b).getText q =
      (d.setText p (txtDelete (d.getText p) a b)).getText q := rfl

/-- `updateTextRemove` leaves annotations untouched. -/
theorem annos_updateTextRemove (d : Doc) (p : List String) (a b : Int) :
    (d.updateTextRemove p a b).annos = d.annos := rfl

/-- `createTextNode` leaves annotations untouched. -/
theorem annos_createTextNode (d : Doc) (ty : String) (c : List Char) :
    ((d.createTextNode ty c).1).annos = d.annos := rfl

/-- `transferAnnotations` reads text exactly as the underlying document. -/
theorem getText_transferAnnotations (d : Doc) (p : List String) (o : Int)
    (np : List String) (no : Int) (q : List String) :
    (transferAnnotations d p o np no).getText q = d.getText q := rfl

/-! ### Claim C5: TextNodeEditing.splitNode -/

/-- A document holding one text node "abc", used to instantiate theorems about
the text-editing behaviour. -/
def abcDoc : Doc :=
  { nodes := [DNode.text "t1" "paragraph" "abc".toList]
    annos := []
    nextId := 0
    ops := [] }

/-- Claim C5: splitting a text node.  At offset 0 an empty `before` node of the
same type is created.  At any offset greater than 0 a new node is created
holding the suffix text — typed with the schema's default text type when the
offset equals the text length and with the original node's type otherwise —
every annotation anchored at or after the split offset is transferred to the
new node rebased at offset 0, the original node's text is truncated to the
prefix, and `{after: newNode}` is returned. -/
theorem C5_splitNode (d : Doc) (nid0 ty : String) (content : List Char) (coor : Coordinate)
    (hn : d.getNode nid0 = some (DNode.text nid0 ty content))
    (hpath : coor.path = [nid0, "content"])
    (hfresh : ∀ n ∈ d.nodes, n.nid ≠ "n" ++ toString d.nextId) :
    (coor.offset = 0 →
      (TextNodeEditing.splitNode d (DNode.text nid0 ty content) coor).2 =
        { before := some ("n" ++ toString d.nextId) } ∧
      (TextNodeEditing.splitNode d (DNode.text nid0 ty content) coor).1.getNode
          ("n" ++ toString d.nextId) =
        some (DNode.text ("n" ++ toString d.nextId) ty [])) ∧
    (0 < coor.offset →
      (TextNodeEditing.splitNode d (DNode.text nid0 ty content) coor).2 =
        { after := some ("n" ++ toString d.nextId) } ∧
      (TextNodeEditing.splitNode d (DNode.text nid0 ty content) coor).1.getNode
          ("n" ++ toString d.nextId) =
        some (DNode.text ("n" ++ toString d.nextId)
          (if coor.offset = (content.length : Int) then defaultTextType else ty)
          (content.drop coor.offset.toNat)) ∧
      (TextNodeEditing.splitNode d (DNode.text nid0 ty content) coor).1.getText
          [nid0, "content"] = content.take coor.offset.toNat ∧
      (TextNodeEditing.splitNode d (DNode.text nid0 ty content) coor).1.annos =
        d.annos.map (fun a =>
          if a.path = [nid0, "content"] ∧ a.startOffset ≥ coor.offset then
            { a with
              path := ["n" ++ toString d.nextId, "content"]
              startOffset := a.startOffset - coor.offset
              endOffset := a.endOffset - coor.offset }
          else a)) := by
  obtain ⟨cpath, coff⟩ := coor
  simp only [Coordinate.path] at hpath
  subst hpath
  have hmem : DNode.text nid0 ty content ∈ d.nodes := mem_of_getNode d nid0 _ hn
  have hne0 : nid0 ≠ "n" ++ toString d.nextId := hfresh _ hmem
  have htext : d.getText [nid0, "content"] = content :=
    getText_eq_of_getNode d [nid0, "content"] nid0 ty content hn
  constructor
  · intro h0
    simp only [Coordinate.offset] at h0
    subst h0
    refine ⟨rfl, ?_⟩
    exact getNode_createTextNode_new d ty [] hfresh
  · intro hpos
    simp only [Coordinate.offset] at hpos
    have hne : ¬ ((⟨[nid0, "content"], coff⟩ : Coordinate).offset = 0) := by
      simp only [Coordinate.offset]
      omega
    unfold TextNodeEditing.splitNode
    rw [if_neg hne]
    simp only [Coordinate.path, Coordinate.offset, htext, DNode.nty]
    refine ⟨rfl, ?_, ?_, ?_⟩
    · -- the freshly created suffix node
      rw [getNode_updateTextRemove]
      rw [getNode_setText_ne _ _ _ _ (by simpa using hne0.symm)]
      rw [getNode_transferAnnotations]
      exact getNode_createTextNode_new d _ _ hfresh
    · -- the original node is truncated
      have h2 : (transferAnnotations (d.createTextNode
            (if coff = (content.length : Int) then defaultTextType else ty)
            (content.drop coff.toNat)).1 [nid0, "content"] coff
            [(d.createTextNode (if coff = (content.length : Int) then defaultTextType else ty)
              (content.drop coff.toNat)).2, "content"] 0).getNode
          ([nid0, "content"].headD "") = some (DNode.text nid0 ty content) := by
        rw [getNode_transferAnnotations]
        exact getNode_createTextNode_old d _ _ _ _ hn
      rw [getText_updateTextRemove]
      rw [getText_setText_found _ _ _ _ _ _ h2]
      rw [getText_transferAnnotations]
      have h3 : ((d.createTextNode
            (if coff = (content.length : Int) then defaultTextType else ty)
            (content.drop coff.toNat)).1).getText [nid0, "content"] = content := by
        apply getText_eq_of_getNode
        exact getNode_createTextNode_old d _ _ _ _ hn
      rw [h3]
      unfold txtDelete
      simp
    · -- annotations at/after the split offset move to the new node at offset 0
      rw [annos_updateTextRemove]
      show (d.annos.map _) = _
      apply List.map_congr_left
      intro a _
      by_cases hc : a.path = [nid0, "content"] ∧ a.startOffset ≥ coff
      · simp [hc, Doc.createTextNode]
      · simp [hc]

/-- Witness for C5 on the text node "abc" split at offset 2. -/
theorem C5_splitNode_witness :
    (TextNodeEditing.splitNode abcDoc (DNode.text "t1" "paragraph" "abc".toList)
        ⟨["t1", "content"], 2⟩).2 = { after := some "n0" } ∧
    (TextNodeEditing.splitNode abcDoc (DNode.text "t1" "paragraph" "abc".toList)
        ⟨["t1", "content"], 2⟩).1.getText ["t1", "content"] = "ab".toList := by
  have h := (C5_splitNode abcDoc "t1" "paragraph" "abc".toList ⟨["t1", "content"], 2⟩
      (by decide) rfl (by decide)).2 (by decide)
  exact ⟨h.1, h.2.2.1⟩

/-! ### Claim C7: deleteRange with an absent start bound -/

/-- Claim C7 evaluated at the failing input `deleteRange(null, end@2)` on the
text node "abc": the deleted range does default to starting at the node's start
(the text becomes "c"), but the returned cursor sits at `end.offset` = 2 — the
code reassigns `start = start || end` before building the selection — not at
the deletion start 0 stated by the claim and by the base-class contract
(model/NodeEditing.js lines 68-71). -/
theorem C7_deleteRange_cursor_bug :
    (TextNodeEditing.deleteRange abcDoc (DNode.text "t1" "paragraph" "abc".toList)
        none (some { path := ["t1", "content"], offset := 2 })).1.getText ["t1", "content"] =
      "c".toList ∧
    (TextNodeEditing.deleteRange abcDoc (DNode.text "t1" "paragraph" "abc".toList)
        none (some { path := ["t1", "content"], offset := 2 })).2 =
      some (.property ["t1", "content"] 2 2 none) ∧
    ¬ ((TextNodeEditing.deleteRange abcDoc (DNode.text "t1" "paragraph" "abc".toList)
        none (some { path := ["t1", "content"], offset := 2 })).2 =
      some (.property ["t1", "content"] 0 0 none)) := by
  decide

/-! ## ContainerEditing (src/model/ContainerEditing.js) -/

/-- Index of the first occurrence of an id in a child list
(`container.getPosition`); `none` models the JS -1 / strict throw. -/
def listPos : List String → String → Option Nat
  | [], _ => none
  | a :: l, x => if a == x then some 0 else (listPos l x).map (· + 1)

/-- Remove the element at an index (array `update {type:'delete', pos}`). -/
def removeAt : List String → Nat → List String
  | [], _ => []
  | _ :: l, 0 => l
  | a :: l, n + 1 => a :: removeAt l n

/-- Insert an element at an index (array `update {type:'insert', pos, value}`);
past-the-end positions append, as a JS splice does. -/
def insertAt : List String → Nat → String → List String
  | l, 0, x => x :: l
  | [], _ + 1, x => [x]
  | a :: l, n + 1, x => a :: insertAt l n x

/-- The container's child-id list (`container.nodes`), empty when the id does
not resolve to a container. -/
def Doc.containerNodes (d : Doc) (cid : String) : List String :=
  match d.getNode cid with
  | some (.container _ l) => l
  | _ => []

/-- The node updater used by `setContainerNodes`. -/
def setContainerFn (cid : String) (l : List String) : DNode → DNode
  | .container i l0 => if i == cid then .container i l else .container i l0
  | x => x

/-- Rewrite the child list of container `cid`. -/
def Doc.setContainerNodes (d : Doc) (cid : String) (l : List String) : Doc :=
  { d with nodes := d.nodes.map (setContainerFn cid l) }

/-- model/ContainerEditing.js lines 46-48 (hideAt): delete the child reference
at `pos` from the content path. -/
def ContainerEditing.hideAt (d : Doc) (cid : String) (pos : Nat) : Doc :=
  let l := d.containerNodes cid
  let d1 := d.setContainerNodes cid (removeAt l pos)
  { d1 with ops := d1.ops ++ [ROp.hideOp cid pos] }

/-- model/ContainerEditing.js lines 34-37 (hide): look the node's position up,
then hideAt.  When the node is not a child the JS would call `hideAt(-1)`; no
claim exercises that path and it leaves the document unchanged here. -/
def ContainerEditing.hide (d : Doc) (cid : String) (nodeId : String) : Doc :=
  match listPos (d.containerNodes cid) nodeId with
  | some p => ContainerEditing.hideAt d cid p
  | none => d

/-- model/ContainerEditing.js lines 14-25 (show, for a single node id):
insert the child reference at `pos`, defaulting to the end when the position
argument is not a number. -/
def ContainerEditing.show (d : Doc) (cid : String) (nodeId : String) (pos : Option Nat) : Doc :=
  let l := d.containerNodes cid
  let p := pos.getD l.length
  let d1 := d.setContainerNodes cid (insertAt l p nodeId)
  { d1 with ops := d1.ops ++ [ROp.showOp cid p nodeId] }

/-! ### The merge negotiation (spec §4.1 step 1-4) -/

/-- The result of `selectMergeType` as a JS value: `null`, `undefined`
(`types[0]` of an empty list), or a type tag.  `mergeNodes` tests the result
with `type === null`, so `undefined` must stay distinguishable from `null`. -/
inductive MergeTypeRes where
  | jsNull
  | jsUndef
  | ty (s : String)
deriving Repr, DecidableEq

/-- model/NodeEditing.js lines 111-113 (base getMergeAsTypes). -/
def NodeEditing.getMergeAsTypes (node : DNode) (coor : Coordinate) : List String :=
  if coor.path.headD "" == node.nid then [node.nty] else []

/-- src/unnamed/part_001 lines 50-55 (text getMergeAsTypes). -/
def TextNodeEditing.getMergeAsTypes (node : DNode) (coor : Coordinate) : List String :=
  if coor.path.headD "" != node.nid then []
  else if node.isEmpty then ["text", "remove"] else ["text"]

/-- model/ContainerEditing.js lines 315-324 (container getMergeAsTypes).  Note
the source compares `coor.path[0]` with `container.id[0]` — the first character
of the id string.  The child lookup is 'strict' (throws when the id is not a
child).  A container nested as the child of another container is exercised by
no claim and reports an error here. -/
def ContainerEditing.getMergeAsTypes (d : Doc) (cnode : DNode) (coor : Coordinate) :
    Except JsError (List String) :=
  if coor.path.headD "" == cnode.nid.take 1 then .ok ["container"]
  else
    match cnode with
    | .container _ l =>
      match listPos l (coor.path.headD "") with
      | none => .error (.jsError "getPosition: not found")
      | some p =>
        match d.getNode (l.getD p "") with
        | some child =>
          match child with
          | .container _ _ => .error (.jsError "nested container merge is not modelled")
          | .text _ _ _ => .ok (TextNodeEditing.getMergeAsTypes child coor ++ ["container"])
          | .other _ _ => .ok (NodeEditing.getMergeAsTypes child coor ++ ["container"])
        | none => .error .typeError
    | _ => .error .typeError

/-- Capability dispatch of getMergeAsTypes (`tx.getEditing(node)`). -/
def dispatchGetMergeAsTypes (d : Doc) (node : DNode) (coor : Coordinate) :
    Except JsError (List String) :=
  match node with
  | .text _ _ _ => .ok (TextNodeEditing.getMergeAsTypes node coor)
  | .container _ _ => ContainerEditing.getMergeAsTypes d node coor
  | .other _ _ => .ok (NodeEditing.getMergeAsTypes node coor)

/-- model/NodeEditing.js lines 131-133: the base behaviour refuses every
merge by returning null. -/
def NodeEditing.selectMergeType : MergeTypeRes := .jsNull

/-- src/unnamed/part_001 lines 57-65 (text selectMergeType). -/
def TextNodeEditing.selectMergeType (node : DNode) (types : List String)
    (coor : Coordinate) : MergeTypeRes :=
  if coor.path.headD "" != node.nid then .jsNull
  else if node.isEmpty then
    match types with
    | [] => .jsUndef
    | t :: _ => .ty t
  else
    match types.find? (fun t => t == "text") with
    | some t => .ty t
    | none => .jsNull

/-- model/ContainerEditing.js lines 326-336 (container selectMergeType): at the
container's own coordinate pick `types[0]`; otherwise ask the addressed child
and fall back to 'container' (`type || types.find(...) || null`). -/
def ContainerEditing.selectMergeType (d : Doc) (cnode : DNode) (types : List String)
    (coor : Coordinate) : Except JsError MergeTypeRes :=
  if coor.path.headD "" == cnode.nid then
    .ok (match types with | [] => .jsUndef | t :: _ => .ty t)
  else
    match cnode with
    | .container _ l =>
      match listPos l (coor.path.headD "") with
      | none => .error (.jsError "getPosition: not found")
      | some p =>
        match d.getNode (l.getD p "") with
        | some child =>
          match child with
          | .container _ _ => .error (.jsError "nested container merge is not modelled")
          | _ =>
            let r := match child with
              | .text _ _ _ => TextNodeEditing.selectMergeType child types coor
              | _ => NodeEditing.selectMergeType
            .ok (match r with
              | .ty s => .ty s
              | _ =>
                match types.find? (fun t => t == "container") with
                | some t => .ty t
                | none => .jsNull)
        | none => .error .typeError
    | _ => .error .typeError

/-- Capability dispatch of selectMergeType. -/
def dispatchSelectMergeType (d : Doc) (node : DNode) (types : List String)
    (coor : Coordinate) : Except JsError MergeTypeRes :=
  match node with
  | .text _ _ _ => .ok (TextNodeEditing.selectMergeType node types coor)
  | .container _ _ => ContainerEditing.selectMergeType d node types coor
  | .other _ _ => .ok NodeEditing.selectMergeType

/-- Modelled from the spec: `selectionHelpers.createNodeSelection` is not among
the provided sources.  Spec §3: a NodeSelection carries `nodeId`,
`containerId`, and a mode; a whole-node selection has mode 'full'. -/
def createNodeSelection (nodeId containerId : String) : Selection :=
  .nodeSel nodeId containerId "full"

/-- Modelled from the spec: `selectionHelpers.selectCursor` is not among the
provided sources.  It produces a collapsed cursor at the start ('before') or
end ('after') of a node: a property cursor on a text node's text path, a node
selection otherwise. -/
def selectCursor (node : DNode) (containerId : Option String) (mode : String) : Selection :=
  match node with
  | .text i _ c =>
      .property [i, "content"] (if mode == "before" then 0 else (c.length : Int))
        (if mode == "before" then 0 else (c.length : Int)) containerId
  | n => .nodeSel n.nid (containerId.getD "") mode

/-- model/NodeEditing.js lines 147-151 and src/unnamed/part_001 lines 67-71:
both the base and the text convertForMerge hide the node from the container and
present the node itself (`console.assert` does not throw). -/
def NodeEditing.convertForMerge (d : Doc) (node : DNode) (cid : String) : Doc × DNode :=
  (ContainerEditing.hide d cid node.nid, node)

/-- Capability dispatch of convertForMerge.  model/ContainerEditing.js lines
338-349: at the container's own coordinate it behaves as the base does; the
nested-child forwarding (lines 345-348) is exercised by no claim and reports an
error. -/
def dispatchConvertForMerge (d : Doc) (node : DNode) (coor : Coordinate) (cid : String) :
    Except JsError (Doc × DNode) :=
  match node with
  | .container _ _ =>
    if coor.path.headD "" == node.nid then .ok (NodeEditing.convertForMerge d node cid)
    else .error (.jsError "nested container merge is not modelled")
  | _ => .ok (NodeEditing.convertForMerge d node cid)

/-- model/NodeEditing.js lines 166-169: the base mergeNode deletes the source
and returns null. -/
def NodeEditing.mergeNode (d : Doc) (source : DNode) : Doc × Option Selection :=
  (documentHelpers.deleteNode d source.nid, none)

/-- src/unnamed/part_001 lines 73-100 (text mergeNode).  An empty target is
replaced wholesale by the source; otherwise for type 'text' the source's text
and annotations are appended at the target's former length, the source is
deleted, and a property cursor at the join point is returned; any other type
only logs a warning and returns null. -/
def TextNodeEditing.mergeNode (d : Doc) (node : DNode) (ty : Option String)
    (source : DNode) (coor : Coordinate) (cid : String) : Doc × Option Selection :=
  if coor.path.headD "" != node.nid then (d, none)
  else if node.isEmpty then
    let nodePos := listPos (d.containerNodes cid) node.nid
    let d1 := ContainerEditing.hide d cid node.nid
    let d2 := ContainerEditing.show d1 cid source.nid nodePos
    let d3 := documentHelpers.deleteNode d2 node.nid
    (d3, some (selectCursor source (some cid) "before"))
  else if ty == some "text" then
    let path := node.getPath
    let startOffset := node.getLength
    let d1 := d.updateTextInsert path startOffset source.getText
    let d2 := transferAnnotations d1 source.getPath 0 path startOffset
    let d3 := documentHelpers.deleteNode d2 source.nid
    (d3, some (.property path startOffset startOffset (some cid)))
  else (d, none)

/-- model/ContainerEditing.js lines 351-384 (container mergeNode).  At the
container's own coordinate: a non-'container' source is appended and selected;
a 'container' source has all its children moved to the end of the target in
order (the two while loops), gets deleted, and a node selection of the first
transplanted child — or of the last existing child when the source was empty —
is returned.  The net effect of the two while loops on the child lists is
modelled; their per-iteration op granularity is not.  Forwarding to a nested
child (lines 380-383) is modelled for text and default children. -/
def ContainerEditing.mergeNode (d : Doc) (cnode : DNode) (ty : Option String)
    (source : DNode) (coor : Coordinate) : Except JsError (Doc × Option Selection) :=
  if coor.path.headD "" == cnode.nid then
    if ty != some "container" then
      let d1 := ContainerEditing.show d cnode.nid source.nid none
      .ok (d1, some (createNodeSelection source.nid cnode.nid))
    else
      let nodePos := (d.containerNodes cnode.nid).length
      let srcNodes := d.containerNodes source.nid
      let d1 := d.setContainerNodes source.nid []
      let d2 := srcNodes.foldl (fun dd x => ContainerEditing.show dd cnode.nid x none) d1
      let d3 := documentHelpers.deleteNode d2 source.nid
      let len := (d3.containerNodes cnode.nid).length
      let nodePos' := if nodePos == len then nodePos - 1 else nodePos
      .ok (d3, some (createNodeSelection
        ((d3.containerNodes cnode.nid).getD nodePos' "") cnode.nid))
  else
    match cnode with
    | .container _ l =>
      match listPos l (coor.path.headD "") with
      | none => .error (.jsError "getPosition: not found")
      | some p =>
        match d.getNode (l.getD p "") with
        | some child =>
          match child with
          | .container _ _ => .error (.jsError "nested container merge is not modelled")
          | .text _ _ _ => .ok (TextNodeEditing.mergeNode d child ty source coor cnode.nid)
          | .other _ _ => .ok (NodeEditing.mergeNode d source)
        | none => .error .typeError
    | _ => .error .typeError

/-- Capability dispatch of mergeNode. -/
def dispatchMergeNode (d : Doc) (target : DNode) (ty : Option String) (source : DNode)
    (coor : Coordinate) (cid : String) : Except JsError (Doc × Option Selection) :=
  match target with
  | .text _ _ _ => .ok (TextNodeEditing.mergeNode d target ty source coor cid)
  | .container _ _ => ContainerEditing.mergeNode d target ty source coor
  | .other _ _ => .ok (NodeEditing.mergeNode d source)

/-- model/ContainerEditing.js lines 119-140 (mergeNodes): the four-step
negotiation.  `type === null` — and only exactly null; `undefined` from
`types[0]` of an empty candidate list does not match — takes the no-merge
path: the source is removed outright if it offered 'remove', otherwise nothing
is mutated, and a node selection is returned either way.  Otherwise the source
is converted and the target absorbs it. -/
def ContainerEditing.mergeNodes (d : Doc) (cid : String) (source : DNode)
    (sourceCoor : Coordinate) (target : DNode) (targetCoor : Coordinate)
    (direction : String) : Except JsError (Doc × Option Selection) :=
  match dispatchGetMergeAsTypes d source sourceCoor with
  | .error e => .error e
  | .ok sourceTypes =>
    match dispatchSelectMergeType d target sourceTypes targetCoor with
    | .error e => .error e
    | .ok tyRes =>
      match tyRes with
      | .jsNull =>
        let nodeId := if direction = "left" then target.nid else source.nid
        if sourceTypes.contains "remove" then
          let d1 := ContainerEditing.hide d cid source.nid
          let d2 := documentHelpers.deleteNode d1 source.nid
          .ok (d2, some (createNodeSelection target.nid cid))
        else
          .ok (d, some (createNodeSelection nodeId cid))
      | _ =>
        let ty : Option String := match tyRes with | .ty s => some s | _ => none
        match dispatchConvertForMerge d source sourceCoor cid with
        | .error e => .error e
        | .ok (d1, sourceNode) => dispatchMergeNode d1 target ty sourceNode targetCoor cid

/-- model/ContainerEditing.js lines 82-116 (merge).  The delegation branch for
a coordinate that is not a direct child (lines 87-98) is unreachable in this
embedding, which resolves the node from the child list by the coordinate's own
head id.  The sibling coordinate built for the picked target/source carries no
offset in the source; its offset is never read by any consumer here and is
fixed at 0.  Without a sibling in the merge direction the method returns
null. -/
def ContainerEditing.merge (d : Doc) (cid : String) (coor : Coordinate)
    (direction : String) : Except JsError (Doc × Option Selection) :=
  let l := d.containerNodes cid
  match listPos l (coor.path.headD "") with
  | none => .error .typeError
  | some nodePos =>
    match d.getNode (l.getD nodePos "") with
    | none => .error .typeError
    | some node =>
      if direction = "left" ∧ 0 < nodePos then
        match d.getNode (l.getD (nodePos - 1) "") with
        | none => .error .typeError
        | some target =>
          ContainerEditing.mergeNodes d cid node coor target ⟨[target.nid], 0⟩ direction
      else if direction = "right" ∧ nodePos < l.length - 1 then
        match d.getNode (l.getD (nodePos + 1) "") with
        | none => .error .typeError
        | some source =>
          ContainerEditing.mergeNodes d cid source ⟨[source.nid], 0⟩ node coor direction
      else
        .ok (d, none)

/-! ### Claim C4: negotiation returning null never fails -/

/-- Claim C4: whenever the merge arbitration in `ContainerEditing.mergeNodes`
ends with the target's selectMergeType returning null, no error is raised:
when the source's getMergeAsTypes list contains 'remove' the source is hidden
from the container and deleted outright with nothing merged, otherwise no
document mutation occurs; in both cases a node selection is returned. -/
theorem C4_mergeNodes_null_negotiation (d : Doc) (cid : String) (source target : DNode)
    (sourceCoor targetCoor : Coordinate) (direction : String) (types : List String)
    (hs : dispatchGetMergeAsTypes d source sourceCoor = .ok types)
    (ht : dispatchSelectMergeType d target types targetCoor = .ok .jsNull) :
    (types.contains "remove" = true →
      ContainerEditing.mergeNodes d cid source sourceCoor target targetCoor direction =
        .ok (documentHelpers.deleteNode (ContainerEditing.hide d cid source.nid) source.nid,
          some (createNodeSelection target.nid cid))) ∧
    (types.contains "remove" = false →
      ContainerEditing.mergeNodes d cid source sourceCoor target targetCoor direction =
        .ok (d, some (createNodeSelection
          (if direction = "left" then target.nid else source.nid) cid))) := by
  unfold ContainerEditing.mergeNodes
  simp only [hs, ht]
  constructor
  · intro hrem
    have hmem : "remove" ∈ types := by simpa using hrem
    simp [hrem]
    intro hns
    exact absurd hmem hns
  · intro hrem
    have hmem : "remove" ∉ types := by simpa using hrem
    simp [hrem]
    intro hns
    exact absurd hns hmem

/-- A container holding an empty text node and a figure-like node with only the
default editing behaviour. -/
def negotiationDoc : Doc :=
  { nodes := [DNode.container "c1" ["s1", "t1"],
              DNode.text "s1" "paragraph" [],
              DNode.other "t1" "figure"]
    annos := []
    nextId := 0
    ops := [] }

/-- Witness for C4: an empty text source (offering ['text', 'remove']) merged
into a figure node whose base behaviour returns null — the source is removed
and a node selection of the target is returned. -/
theorem C4_mergeNodes_null_negotiation_witness :
    ContainerEditing.mergeNodes negotiationDoc "c1" (DNode.text "s1" "paragraph" [])
        ⟨["s1", "content"], 0⟩ (DNode.other "t1" "figure") ⟨["t1"], 0⟩ "left" =
      .ok (documentHelpers.deleteNode
          (ContainerEditing.hide negotiationDoc "c1" "s1") "s1",
        some (createNodeSelection "t1" "c1")) :=
  (C4_mergeNodes_null_negotiation negotiationDoc "c1" (DNode.text "s1" "paragraph" [])
    (DNode.other "t1" "figure") ⟨["s1", "content"], 0⟩ ⟨["t1"], 0⟩ "left"
    ["text", "remove"] rfl rfl).1 rfl

/-! ### Claim C6: merging two adjacent text nodes "foo" and "bar" -/

/-- A container with two adjacent text nodes "foo" and "bar"; "bar" carries one
annotation spanning its whole content. -/
def fooBarDoc : Doc :=
  { nodes := [DNode.container "c1" ["foo", "bar"],
              DNode.text "foo" "paragraph" "foo".toList,
              DNode.text "bar" "paragraph" "bar".toList]
    annos := [{ id := "a1", path := ["bar", "content"], startOffset := 0, endOffset := 3,
                isInlineNode := false, autoExpandRight := false }]
    nextId := 0
    ops := [] }

/-- Merging "bar" leftwards into "foo" through the four-step negotiation. -/
def fooBarMerged : Except JsError (Doc × Option Selection) :=
  ContainerEditing.merge fooBarDoc "c1" ⟨["bar", "content"], 0⟩ "left"

/-- Claim C6: merging the adjacent text nodes "foo" (target) and "bar" (source)
produces one node with content "foobar", removes the source from the container
and deletes it, transfers the source's annotations shifted to the join point,
and returns a collapsed property cursor at offset 3. -/
theorem C6_merge_text_nodes :
    fooBarMerged.toOption.map (fun r => r.1.getText ["foo", "content"]) =
      some "foobar".toList ∧
    fooBarMerged.toOption.map (fun r => r.1.containerNodes "c1") = some ["foo"] ∧
    fooBarMerged.toOption.map (fun r => r.1.getNode "bar") = some none ∧
    fooBarMerged.toOption.map (fun r =>
        r.1.annos.map (fun a => (a.id, a.path, a.startOffset, a.endOffset))) =
      some [("a1", ["foo", "content"], (3 : Int), (6 : Int))] ∧
    fooBarMerged.toOption.map (fun r => r.2) =
      some (some (.property ["foo", "content"] 3 3 (some "c1"))) := by
  decide

/-! ## Editing.indent / Editing.dedent (src/unnamed/part_002 lines 449-484)

The orchestrator's indent/dedent read only: the selection's kind, the head of
the property path, whether `tx.get(nodeId).getRoot()` is a list, and the
addressed item's `level`; they write only the item's level.  The embedded state
carries exactly that. -/

/-- The selection kinds `indent`/`dedent` distinguish. -/
inductive ISel where
  | prop (path : List String)
  | containerKind
  | otherKind
deriving Repr, DecidableEq

/-- The state observed by indent/dedent: list items (id, level) and the set of
node ids whose root node is a list. -/
structure ListDoc where
  items : List (String × Int)
  listRooted : List String
deriving Repr, DecidableEq

/-- The level of an item (`tx.get(itemId).level`). -/
def ListDoc.levelOf (d : ListDoc) (id : String) : Option Int :=
  (d.items.find? (fun p => p.1 == id)).map (fun p => p.2)

/-- `tx.set([itemId, 'level'], v)`. -/
def ListDoc.setLevel (d : ListDoc) (id : String) (lv : Int) : ListDoc :=
  { d with items := d.items.map (fun p => if p.1 == id then (p.1, lv) else p) }

/-- src/unnamed/part_002 lines 449-466 (Editing.indent): only on a property
selection whose root node is a list; the addressed item's level is incremented
only when it is strictly below 3 ("Note: allowing only 3 levels").  A container
selection only logs an error.  (`sel.start.getNodeId()` and `sel.start.path[0]`
are both the head of the property path.) -/
def Editing.indent (d : ListDoc) (sel : ISel) : ListDoc :=
  match sel with
  | .prop path =>
    let nodeId := path.headD ""
    if d.listRooted.contains nodeId then
      let itemId := path.headD ""
      match d.items.find? (fun p => p.1 == itemId) with
      | some item => if item.2 < 3 then d.setLevel itemId (item.2 + 1) else d
      | none => d
    else d
  | .containerKind => d
  | .otherKind => d

/-- src/unnamed/part_002 lines 468-484 (Editing.dedent): only on a property
selection whose root node is a list; the addressed item's level is decremented
only when it is strictly above 1. -/
def Editing.dedent (d : ListDoc) (sel : ISel) : ListDoc :=
  match sel with
  | .prop path =>
    let nodeId := path.headD ""
    if d.listRooted.contains nodeId then
      let itemId := path.headD ""
      match d.items.find? (fun p => p.1 == itemId) with
      | some item => if 1 < item.2 then d.setLevel itemId (item.2 - 1) else d
      | none => d
    else d
  | .containerKind => d
  | .otherKind => d

/-- A sequence of indent (`true`) and dedent (`false`) operations, each with
its own selection. -/
def applyIndentSeq (d : ListDoc) : List (Bool × ISel) → ListDoc
  | [] => d
  | (b, sel) :: rest =>
      applyIndentSeq (if b then Editing.indent d sel else Editing.dedent d sel) rest

/-- `setLevel` on one id leaves every other id's level unchanged. -/
theorem levelOf_setLevel_other (d : ListDoc) (x : String) (v : Int) (y : String)
    (hxy : y ≠ x) :
    (d.setLevel x v).levelOf y = d.levelOf y := by
  unfold ListDoc.setLevel ListDoc.levelOf
  rw [List.find?_map]
  have hp : ((fun p : String × Int => p.1 == y) ∘
      (fun p => if p.1 == x then (p.1, v) else p)) = (fun p => p.1 == y) := by
    funext p
    by_cases hpx : p.1 == x
    · simp [Function.comp, hpx]
    · simp [Function.comp, hpx]
  rw [hp]
  cases hf : d.items.find? (fun p => p.1 == y) with
  | none => rfl
  | some p =>
      have hpy := List.find?_some hf
      have : p.1 = y := by simpa using hpy
      simp only [Option.map_some']
      rw [if_neg]
      intro hcontr
      exact hxy (this ▸ (by simpa using hcontr))

/-- `setLevel` on an existing id sets that id's level. -/
theorem levelOf_setLevel_self (d : ListDoc) (x : String) (v lv0 : Int)
    (h : d.levelOf x = some lv0) :
    (d.setLevel x v).levelOf x = some v := by
  unfold ListDoc.setLevel ListDoc.levelOf
  rw [List.find?_map]
  have hp : ((fun p : String × Int => p.1 == x) ∘
      (fun p => if p.1 == x then (p.1, v) else p)) = (fun p => p.1 == x) := by
    funext p
    by_cases hpx : p.1 == x
    · simp [Function.comp, hpx]
    · simp [Function.comp, hpx]
  rw [hp]
  unfold ListDoc.levelOf at h
  cases hf : d.items.find? (fun p => p.1 == x) with
  | none => rw [hf] at h; exact absurd h (by simp)
  | some p =>
      have hpx0 := List.find?_some hf
      have hpx : (p.1 == x) = true := hpx0
      simp only [Option.map_some']
      rw [if_pos hpx]

/-- One indent either leaves an item's level unchanged or, only when the level
was strictly below 3, increments it. -/
theorem indent_level_cases (d : ListDoc) (id : String) (lv : Int)
    (h : d.levelOf id = some lv) (sel : ISel) :
    (Editing.indent d sel).levelOf id = some lv ∨
    ((Editing.indent d sel).levelOf id = some (lv + 1) ∧ lv < 3) := by
  cases sel with
  | containerKind => exact Or.inl h
  | otherKind => exact Or.inl h
  | prop path =>
    simp only [Editing.indent]
    by_cases hc : d.listRooted.contains (path.headD "") = true
    · rw [if_pos hc]
      split
      next item heq =>
        by_cases hid : path.headD "" = id
        · have hitem : d.levelOf id = some item.2 := by
            unfold ListDoc.levelOf
            rw [← hid, heq]
            rfl
          have hlveq : item.2 = lv := by
            rw [h] at hitem
            exact (Option.some.inj hitem).symm
          by_cases hlt : item.2 < 3
          · right
            rw [if_pos hlt]
            refine ⟨?_, by omega⟩
            rw [hid, hlveq]
            exact levelOf_setLevel_self d id (lv + 1) lv (hid ▸ h)
          · left
            rw [if_neg hlt]
            exact h
        · by_cases hlt : item.2 < 3
          · left
            rw [if_pos hlt]
            rw [levelOf_setLevel_other d (path.headD "") (item.2 + 1) id
              (fun he => hid he.symm)]
            exact h
          · left
            rw [if_neg hlt]
            exact h
      next heq => exact Or.inl h
    · rw [if_neg hc]
      exact Or.inl h

/-- One dedent either leaves an item's level unchanged or, only when the level
was strictly above 1, decrements it. -/
theorem dedent_level_cases (d : ListDoc) (id : String) (lv : Int)
    (h : d.levelOf id = some lv) (sel : ISel) :
    (Editing.dedent d sel).levelOf id = some lv ∨
    ((Editing.dedent d sel).levelOf id = some (lv - 1) ∧ 1 < lv) := by
  cases sel with
  | containerKind => exact Or.inl h
  | otherKind => exact Or.inl h
  | prop path =>
    simp only [Editing.dedent]
    by_cases hc : d.listRooted.contains (path.headD "") = true
    · rw [if_pos hc]
      split
      next item heq =>
        by_cases hid : path.headD "" = id
        · have hitem : d.levelOf id = some item.2 := by
            unfold ListDoc.levelOf
            rw [← hid, heq]
            rfl
          have hlveq : item.2 = lv := by
            rw [h] at hitem
            exact (Option.some.inj hitem).symm
          by_cases hlt : 1 < item.2
          · right
            rw [if_pos hlt]
            refine ⟨?_, by omega⟩
            rw [hid, hlveq]
            exact levelOf_setLevel_self d id (lv - 1) lv (hid ▸ h)
          · left
            rw [if_neg hlt]
            exact h
        · by_cases hlt : 1 < item.2
          · left
            rw [if_pos hlt]
            rw [levelOf_setLevel_other d (path.headD "") (item.2 - 1) id
              (fun he => hid he.symm)]
            exact h
          · left
            rw [if_neg hlt]
            exact h
      next heq => exact Or.inl h
    · rw [if_neg hc]
      exact Or.inl h

/-- Claim C9: indent and dedent apply only to list-item property selections and
clamp the item's level to [1,3].  For every item whose level lies in [1,3]:
indent increments the level only when it is strictly below 3, dedent
decrements it only when it is strictly above 1, after any sequence of
indent/dedent operations the level remains in [1,3], and property selections
whose root node is not a list leave the document unchanged. -/
theorem C9_indent_dedent_clamp (d : ListDoc) (id : String) (lv : Int)
    (hlv : d.levelOf id = some lv) (h1 : 1 ≤ lv) (h3 : lv ≤ 3) :
    (∀ sel, (Editing.indent d sel).levelOf id = some lv ∨
      ((Editing.indent d sel).levelOf id = some (lv + 1) ∧ lv < 3)) ∧
    (∀ sel, (Editing.dedent d sel).levelOf id = some lv ∨
      ((Editing.dedent d sel).levelOf id = some (lv - 1) ∧ 1 < lv)) ∧
    (∀ seq : List (Bool × ISel), ∃ lv',
      (applyIndentSeq d seq).levelOf id = some lv' ∧ 1 ≤ lv' ∧ lv' ≤ 3) ∧
    (∀ path, d.listRooted.contains (path.headD "") = false →
      Editing.indent d (.prop path) = d ∧ Editing.dedent d (.prop path) = d) := by
  refine ⟨fun sel => indent_level_cases d id lv hlv sel,
    fun sel => dedent_level_cases d id lv hlv sel, ?_, ?_⟩
  · intro seq
    induction seq generalizing d lv with
    | nil => exact ⟨lv, hlv, h1, h3⟩
    | cons step rest ih =>
      obtain ⟨b, sel⟩ := step
      cases b with
      | true =>
        rcases indent_level_cases d id lv hlv sel with hcase | ⟨hcase, hlt⟩
        · exact ih _ _ hcase h1 h3
        · exact ih _ _ hcase (by omega) (by omega)
      | false =>
        rcases dedent_level_cases d id lv hlv sel with hcase | ⟨hcase, hlt⟩
        · exact ih _ _ hcase h1 h3
        · exact ih _ _ hcase (by omega) (by omega)
  · intro path hc
    have hc' : ¬ (d.listRooted.contains (path.headD "") = true) := by
      simp only [hc]
      exact Bool.false_ne_true
    constructor
    · simp only [Editing.indent]
      rw [if_neg hc']
    · simp only [Editing.dedent]
      rw [if_neg hc']

/-- A one-item list document for instantiating the indent/dedent theorem. -/
def oneItemList : ListDoc :=
  { items := [("i1", 1)], listRooted := ["i1"] }

/-- Witness for C9 on a single list item at level 1. -/
theorem C9_indent_dedent_clamp_witness :
    oneItemList.levelOf "i1" = some 1 ∧
    (∀ seq : List (Bool × ISel), ∃ lv',
      (applyIndentSeq oneItemList seq).levelOf "i1" = some lv' ∧ 1 ≤ lv' ∧ lv' ≤ 3) :=
  ⟨by decide, (C9_indent_dedent_clamp oneItemList "i1" 1 (by decide)
    (by decide) (by decide)).2.2.1⟩

/-! ## ContainerEditing.deleteRange (model/ContainerEditing.js lines 146-206) -/

/-- Modelled from the spec: `selectionHelpers.isEntirelySelected` is not among
the provided sources.  Spec §4.2 step 2: a child is "entirely selected" when
"the selection covers the whole node"; `deleteRange` passes `(start, null)`
for the first child and `(null, end)` for the last, an absent bound covering
the node from that side.  For a text node the present start bound must sit at
the text's start and the present end bound at its length; a non-text block
node addressed by a node coordinate is covered. -/
def isEntirelySelected (node : DNode) (start stop : Option Coordinate) : Bool :=
  match node with
  | .text _ _ c =>
      (match start with | none => true | some s => decide (s.offset ≤ 0)) &&
      (match stop with | none => true | some e => decide ((c.length : Int) ≤ e.offset))
  | _ => true

/-- Capability dispatch of a child's deleteRange.  Text children carry the only
specialized deleteRange among the embedded behaviours; the base behaviour
throws "not implemented" (model/NodeEditing.js lines 81-83); a container child
would recurse and is exercised by no claim. -/
def dispatchChildDeleteRange (d : Doc) (child : DNode) (start stop : Option Coordinate) :
    Except JsError (Doc × Option Selection) :=
  match child with
  | .text _ _ _ => .ok (TextNodeEditing.deleteRange d child start stop)
  | .container _ _ => .error (.jsError "nested container deleteRange is not modelled")
  | .other _ _ => .error (.jsError "not implemented")

/-- The inner-node loop of deleteRange (model/ContainerEditing.js lines
168-173): `for (let i = endPos-1; i > startPos; --i)` hide and delete the
child at index `i` of the current child list — descending order keeps the
remaining indices stable. -/
def deleteInnerLoop (d : Doc) (cid : String) (startPos : Nat) (i : Nat) : Doc :=
  if h : startPos < i then
    let nodeId := (d.containerNodes cid).getD i ""
    deleteInnerLoop (documentHelpers.deleteNode (ContainerEditing.hide d cid nodeId) nodeId)
      cid startPos (i - 1)
  else d
termination_by i
decreasing_by omega

/-- model/ContainerEditing.js lines 146-206 (deleteRange), the cross-node
deletion algorithm.  Child positions come from 'strict' lookups; a range
within one child is delegated to that child; otherwise the last child is
deleted outright or partially, the strictly-inner children are deleted in
descending index order, the first child is deleted outright or partially, and
the result branches on which ends were entirely selected.  The node objects
the source keeps across mutations are live views, so the boundary cursors are
built from the node re-read from the mutated document. -/
def ContainerEditing.deleteRange (d : Doc) (cid : String) (start stop : Coordinate)
    (noMerge : Bool) : Except JsError (Doc × Option Selection) :=
  let l := d.containerNodes cid
  match listPos l start.getNodeId, listPos l stop.getNodeId with
  | some startPos, some endPos =>
    if startPos = endPos then
      match d.getNode (l.getD startPos "") with
      | some child => dispatchChildDeleteRange d child (some start) (some stop)
      | none => .error .typeError
    else
      match d.getNode start.getNodeId, d.getNode stop.getNodeId with
      | some firstNode, some lastNode =>
        let firstES := isEntirelySelected firstNode (some start) none
        let lastES := isEntirelySelected lastNode none (some stop)
        let step1 : Except JsError Doc :=
          if lastES then
            .ok (documentHelpers.deleteNode (ContainerEditing.hide d cid lastNode.nid)
              lastNode.nid)
          else
            (dispatchChildDeleteRange d lastNode none (some stop)).map (fun r => r.1)
        match step1 with
        | .error e => .error e
        | .ok d1 =>
          let d2 := deleteInnerLoop d1 cid startPos (endPos - 1)
          let step2 : Except JsError Doc :=
            if firstES then
              .ok (documentHelpers.deleteNode (ContainerEditing.hide d2 cid firstNode.nid)
                firstNode.nid)
            else
              (dispatchChildDeleteRange d2 firstNode (some start) none).map (fun r => r.1)
          match step2 with
          | .error e => .error e
          | .ok d3 =>
            if firstES = true ∧ lastES = true then
              let r := d3.createDefaultTextNode []
              let d4 := ContainerEditing.show r.1 cid r.2 (some startPos)
              .ok (d4, some (.property [r.2, "content"] 0 0 (some cid)))
            else if firstES = false ∧ lastES = false then
              if noMerge = false then
                ContainerEditing.merge d3 cid start "right"
              else
                .ok (d3, some (.property start.path start.offset start.offset (some cid)))
            else if firstES = true then
              .ok (d3, some (selectCursor ((d3.getNode lastNode.nid).getD lastNode)
                (some cid) "before"))
            else
              .ok (d3, some (selectCursor ((d3.getNode firstNode.nid).getD firstNode)
                (some cid) "after"))
      | _, _ => .error .typeError
  | _, _ => .error (.jsError "getPosition: not found")

/-- The node ids deleted by a recorded operation sequence, in order. -/
def deletedNodeIds (l : List ROp) : List String :=
  l.filterMap (fun op => match op with | .deleteNode i => some i | _ => none)

/-! ### Lemmas about the container primitives -/

/-- `listPos` finds the head at index 0. -/
theorem listPos_cons_self (x : String) (l : List String) : listPos (x :: l) x = some 0 := by
  simp [listPos]

/-- `listPos` finds a last element that occurs nowhere earlier. -/
theorem listPos_append_last (l : List String) (b : String) (h : b ∉ l) :
    listPos (l ++ [b]) b = some l.length := by
  induction l with
  | nil => simp [listPos]
  | cons a t ih =>
      have hab : (a == b) = false := by
        have : a ≠ b := fun he => h (he ▸ List.mem_cons_self a t)
        exact beq_eq_false_iff_ne.mpr this
      have hbt : b ∉ t := fun hm => h (List.mem_cons_of_mem a hm)
      simp [listPos, hab, ih hbt]

/-- Removing the final element. -/
theorem removeAt_append_last (l : List String) (x : String) :
    removeAt (l ++ [x]) l.length = l := by
  induction l with
  | nil => rfl
  | cons a t ih => simp [removeAt, ih]

/-- Reading the final element. -/
theorem getD_append_last (l : List String) (x : String) :
    (l ++ [x]).getD l.length "" = x := by
  induction l with
  | nil => rfl
  | cons a t ih => simpa [List.getD] using ih

/-- `setContainerFn` never changes a node's id. -/
theorem setContainerFn_nid (cid : String) (l : List String) (n : DNode) :
    (setContainerFn cid l n).nid = n.nid := by
  cases n with
  | container i l0 =>
      simp only [setContainerFn]
      split <;> rfl
  | text i ty c => rfl
  | other i ty => rfl

/-- Looking a node up after `setContainerNodes` applies the updater to the
lookup result. -/
theorem getNode_setContainerNodes (d : Doc) (cid : String) (l : List String) (x : String) :
    (d.setContainerNodes cid l).getNode x = (d.getNode x).map (setContainerFn cid l) := by
  unfold Doc.setContainerNodes Doc.getNode
  rw [List.find?_map]
  have hp : ((fun n : DNode => n.nid == x) ∘ setContainerFn cid l) =
      (fun n => n.nid == x) := by
    funext n
    simp [Function.comp, setContainerFn_nid]
  rw [hp]

/-- `setContainerNodes` leaves nodes with a different id untouched. -/
theorem getNode_setContainerNodes_ne (d : Doc) (cid : String) (l : List String) (x : String)
    (hx : x ≠ cid) :
    (d.setContainerNodes cid l).getNode x = d.getNode x := by
  rw [getNode_setContainerNodes]
  cases h : d.getNode x with
  | none => rfl
  | some n =>
      have h' : d.nodes.find? (fun m => m.nid == x) = some n := h
      have hnid0 := List.find?_some h'
      have hnx : n.nid = x := by simpa using hnid0
      cases n with
      | container i l0 =>
          have hic : i = x := hnx
          have hne : (i == cid) = false := by
            rw [hic]
            exact beq_eq_false_iff_ne.mpr hx
          simp only [Option.map_some', setContainerFn, hne, Bool.false_eq_true, if_false]
      | text i ty c => rfl
      | other i ty => rfl

/-- `setContainerNodes` rewrites the addressed container's child list. -/
theorem getNode_setContainerNodes_self (d : Doc) (cid : String) (l l0 : List String)
    (h : d.getNode cid = some (DNode.container cid l0)) :
    (d.setContainerNodes cid l).getNode cid = some (DNode.container cid l) := by
  rw [getNode_setContainerNodes, h]
  simp [setContainerFn]

/-- `find?` commutes with a filter that can only drop non-matching elements. -/
theorem find?_filter_of_imp (l : List DNode) (p q : DNode → Bool)
    (h : ∀ n, p n = true → q n = true) :
    (l.filter q).find? p = l.find? p := by
  induction l with
  | nil => rfl
  | cons a t ih =>
      by_cases hq : q a = true
      · by_cases hp : p a = true
        · simp [List.filter_cons, hq, List.find?_cons, hp]
        · simp only [List.filter_cons, hq, if_true]
          simp [List.find?_cons, hp, ih]
      · have hp : p a = false := by
          cases hpa : p a with
          | false => rfl
          | true => exact absurd (h a hpa) (by simp [hq])
        simp [List.filter_cons, hq, List.find?_cons, hp, ih]

/-- Looking a node up after `deleteNode`. -/
theorem getNode_deleteNode (d : Doc) (y x : String) :
    (documentHelpers.deleteNode d y).getNode x =
      if x = y then none else d.getNode x := by
  unfold documentHelpers.deleteNode Doc.getNode
  by_cases hxy : x = y
  · subst hxy
    rw [if_pos rfl]
    rw [List.find?_eq_none]
    intro n hn
    have := List.mem_filter.mp hn
    intro hpx
    have h1 : n.nid = x := by simpa using hpx
    have h2 : (n.nid != x) = true := this.2
    simp [h1] at h2
  · rw [if_neg hxy]
    apply find?_filter_of_imp
    intro n hp
    have h1 : n.nid = x := by simpa using hp
    have : n.nid ≠ y := fun he => hxy (h1 ▸ he ▸ rfl)
    simpa using this

/-- Un-hidden fields of `hide`: node lookups of other ids, id counter,
annotations. -/
theorem getNode_hide_ne (d : Doc) (cid nodeId x : String) (hx : x ≠ cid) :
    (ContainerEditing.hide d cid nodeId).getNode x = d.getNode x := by
  unfold ContainerEditing.hide
  cases h : listPos (d.containerNodes cid) nodeId with
  | none => rfl
  | some p =>
      unfold ContainerEditing.hideAt
      show ((d.setContainerNodes cid _).getNode x) = _
      exact getNode_setContainerNodes_ne d cid _ x hx

/-- `hide` keeps the id counter. -/
theorem nextId_hide (d : Doc) (cid nodeId : String) :
    (ContainerEditing.hide d cid nodeId).nextId = d.nextId := by
  unfold ContainerEditing.hide
  cases h : listPos (d.containerNodes cid) nodeId with
  | none => rfl
  | some p => rfl

/-- `hide` keeps the annotations. -/
theorem annos_hide (d : Doc) (cid nodeId : String) :
    (ContainerEditing.hide d cid nodeId).annos = d.annos := by
  unfold ContainerEditing.hide
  cases h : listPos (d.containerNodes cid) nodeId with
  | none => rfl
  | some p => rfl

/-- `deleteNode` keeps the id counter. -/
theorem nextId_deleteNode (d : Doc) (y : String) :
    (documentHelpers.deleteNode d y).nextId = d.nextId := rfl

/-- `deleteNode` keeps the annotations. -/
theorem annos_deleteNode (d : Doc) (y : String) :
    (documentHelpers.deleteNode d y).annos = d.annos := rfl

/-- `hide` records no node deletion. -/
theorem deletedNodeIds_hide (d : Doc) (cid nodeId : String) :
    deletedNodeIds (ContainerEditing.hide d cid nodeId).ops = deletedNodeIds d.ops := by
  unfold ContainerEditing.hide
  cases h : listPos (d.containerNodes cid) nodeId with
  | none => rfl
  | some p =>
      unfold ContainerEditing.hideAt deletedNodeIds
      simp [Doc.setContainerNodes, List.filterMap_append]

/-- `deleteNode` records exactly one node deletion. -/
theorem deletedNodeIds_deleteNode (d : Doc) (y : String) :
    deletedNodeIds (documentHelpers.deleteNode d y).ops = deletedNodeIds d.ops ++ [y] := by
  unfold documentHelpers.deleteNode deletedNodeIds
  simp [List.filterMap_append]

/-- Reading the child list through a successful container lookup. -/
theorem containerNodes_eq (d : Doc) (cid : String) (l : List String)
    (h : d.getNode cid = some (DNode.container cid l)) :
    d.containerNodes cid = l := by
  unfold Doc.containerNodes
  rw [h]

/-- `hide` at a known position rewrites the container's child list. -/
theorem getNode_hide_self (d : Doc) (cid nodeId : String) (l : List String) (p : Nat)
    (hl : d.getNode cid = some (DNode.container cid l))
    (hp : listPos l nodeId = some p) :
    (ContainerEditing.hide d cid nodeId).getNode cid =
      some (DNode.container cid (removeAt l p)) := by
  unfold ContainerEditing.hide
  rw [containerNodes_eq d cid l hl, hp]
  show ((d.setContainerNodes cid (removeAt (d.containerNodes cid) p)).getNode cid) = _
  rw [containerNodes_eq d cid l hl]
  exact getNode_setContainerNodes_self d cid _ l hl

/-- No node of `d` carries the id `id`. -/
def FreshOk (d : Doc) (id : String) : Prop := ∀ n ∈ d.nodes, n.nid ≠ id

/-- `setContainerNodes` preserves id freshness. -/
theorem freshOk_setContainerNodes (d : Doc) (cid : String) (l : List String) (id : String)
    (h : FreshOk d id) : FreshOk (d.setContainerNodes cid l) id := by
  intro n hn
  unfold Doc.setContainerNodes at hn
  simp only [List.mem_map] at hn
  obtain ⟨m, hm, rfl⟩ := hn
  rw [setContainerFn_nid]
  exact h m hm

/-- `hide` preserves id freshness. -/
theorem freshOk_hide (d : Doc) (cid nodeId id : String) (h : FreshOk d id) :
    FreshOk (ContainerEditing.hide d cid nodeId) id := by
  unfold ContainerEditing.hide
  cases hp : listPos (d.containerNodes cid) nodeId with
  | none => exact h
  | some p => exact freshOk_setContainerNodes d cid _ id h

/-- `deleteNode` preserves id freshness. -/
theorem freshOk_deleteNode (d : Doc) (y id : String) (h : FreshOk d id) :
    FreshOk (documentHelpers.deleteNode d y) id := by
  intro n hn
  unfold documentHelpers.deleteNode at hn
  simp only [List.mem_filter] at hn
  exact h n hn.1

/-- The inner-node loop does nothing at counter 0. -/
theorem deleteInnerLoop_zero (d : Doc) (cid : String) : deleteInnerLoop d cid 0 0 = d := by
  rw [deleteInnerLoop]
  simp

/-- One unfolding of the inner-node loop at a positive counter. -/
theorem deleteInnerLoop_succ (d : Doc) (cid : String) (i : Nat) :
    deleteInnerLoop d cid 0 (i + 1) =
      deleteInnerLoop
        (documentHelpers.deleteNode
          (ContainerEditing.hide d cid ((d.containerNodes cid).getD (i + 1) ""))
          ((d.containerNodes cid).getD (i + 1) "")) cid 0 i := by
  rw [deleteInnerLoop]
  rw [dif_pos (Nat.succ_pos i)]
  simp

/-- The inner-node loop preserves id freshness. -/
theorem freshOk_deleteInnerLoop (cid : String) (id : String) :
    ∀ (i : Nat) (d : Doc), FreshOk d id → FreshOk (deleteInnerLoop d cid 0 i) id := by
  intro i
  induction i with
  | zero => intro d h; rw [deleteInnerLoop_zero]; exact h
  | succ n ih =>
      intro d h
      rw [deleteInnerLoop_succ]
      exact ih _ (freshOk_deleteNode _ _ _ (freshOk_hide _ _ _ _ h))

/-- What the inner-node loop of `deleteRange` does to a container whose current
child list is `a :: mids`, run from index `mids.length` down to 1: the inner
children are removed from the container and deleted from the document in
descending index order, everything else is untouched. -/
theorem deleteInnerLoop_spec :
    ∀ (mids : List String) (d : Doc) (cid a : String),
      d.getNode cid = some (DNode.container cid (a :: mids)) →
      (a :: mids).Nodup →
      cid ∉ a :: mids →
      ((deleteInnerLoop d cid 0 mids.length).getNode cid =
          some (DNode.container cid [a])) ∧
      (∀ x ∈ mids, (deleteInnerLoop d cid 0 mids.length).getNode x = none) ∧
      (∀ x, x ∉ mids → x ≠ cid →
        (deleteInnerLoop d cid 0 mids.length).getNode x = d.getNode x) ∧
      ((deleteInnerLoop d cid 0 mids.length).nextId = d.nextId) ∧
      ((deleteInnerLoop d cid 0 mids.length).annos = d.annos) ∧
      deletedNodeIds (deleteInnerLoop d cid 0 mids.length).ops =
        deletedNodeIds d.ops ++ mids.reverse := by
  intro mids
  induction mids using List.reverseRecOn with
  | nil =>
      intro d cid a h hnd hcm
      rw [List.length_nil, deleteInnerLoop_zero]
      refine ⟨h, ?_, ?_, rfl, rfl, by simp⟩
      · intro x hx
        exact absurd hx (List.not_mem_nil x)
      · intro x _ _
        rfl
  | append_singleton ms m ih =>
      intro d cid a h hnd hcm
      -- unpack the duplicate-freedom hypothesis
      have hcons := List.nodup_cons.mp hnd
      have ha_not : a ∉ ms ++ [m] := hcons.1
      have happ := List.nodup_append.mp hcons.2
      have hm_ms : m ∉ ms := fun hm => happ.2.2 hm (List.mem_singleton.mpr rfl)
      have ha_ms : a ∉ ms := fun hm => ha_not (List.mem_append_left _ hm)
      have ham : a ≠ m := fun he =>
        ha_not (List.mem_append_right _ (List.mem_singleton.mpr he))
      have hm_not : m ∉ a :: ms := by
        intro hmem
        rcases List.mem_cons.mp hmem with hma | hms
        · exact ham hma.symm
        · exact hm_ms hms
      have hcid_a : cid ≠ a := fun he => hcm (he ▸ List.mem_cons_self a _)
      have hcid_m : cid ≠ m := fun he =>
        hcm (List.mem_cons_of_mem a
          (List.mem_append_right _ (he ▸ List.mem_singleton.mpr rfl)))
      have hcm' : cid ∉ a :: ms := by
        intro hmem
        rcases List.mem_cons.mp hmem with hca | hcs
        · exact hcid_a hca
        · exact hcm (List.mem_cons_of_mem a (List.mem_append_left _ hcs))
      -- one unfolding of the loop, acting on the last child m
      have hlen : (ms ++ [m]).length = ms.length + 1 := by simp
      rw [hlen, deleteInnerLoop_succ]
      have hcn : d.containerNodes cid = a :: (ms ++ [m]) := containerNodes_eq _ _ _ h
      have hX : (d.containerNodes cid).getD (ms.length + 1) "" = m := by
        rw [hcn]
        exact getD_append_last (a :: ms) m
      rw [hX]
      -- the document after hiding and deleting m
      have hp : listPos (a :: (ms ++ [m])) m = some (ms.length + 1) :=
        listPos_append_last (a :: ms) m hm_not
      have hrm : removeAt (a :: (ms ++ [m])) (ms.length + 1) = a :: ms :=
        removeAt_append_last (a :: ms) m
      have hd1cid : (ContainerEditing.hide d cid m).getNode cid =
          some (DNode.container cid (a :: ms)) := by
        have := getNode_hide_self d cid m (a :: (ms ++ [m])) (ms.length + 1) h hp
        rw [hrm] at this
        exact this
      have hd2cid :
          (documentHelpers.deleteNode (ContainerEditing.hide d cid m) m).getNode cid =
            some (DNode.container cid (a :: ms)) := by
        rw [getNode_deleteNode, if_neg hcid_m, hd1cid]
      have hnd'' : (a :: ms).Nodup := List.nodup_cons.mpr ⟨ha_ms, happ.1⟩
      obtain ⟨i1, i2, i3, i4, i5, i6⟩ :=
        ih (documentHelpers.deleteNode (ContainerEditing.hide d cid m) m) cid a
          hd2cid hnd'' hcm'
      refine ⟨i1, ?_, ?_, ?_, ?_, ?_⟩
      · -- every inner child is gone
        intro x hx
        rcases List.mem_append.mp hx with hxm | hxm
        · exact i2 x hxm
        · have hxem : x = m := List.mem_singleton.mp hxm
          subst hxem
          rw [i3 x hm_ms hcid_m.symm]
          rw [getNode_deleteNode, if_pos rfl]
      · -- everything outside the inner children and the container is untouched
        intro x hx hxc
        have hx_ms : x ∉ ms := fun hm => hx (List.mem_append_left _ hm)
        have hx_m : x ≠ m := fun he =>
          hx (List.mem_append_right _ (List.mem_singleton.mpr he))
        rw [i3 x hx_ms hxc]
        rw [getNode_deleteNode, if_neg hx_m]
        exact getNode_hide_ne d cid m x hxc
      · rw [i4, nextId_deleteNode, nextId_hide]
      · rw [i5, annos_deleteNode, annos_hide]
      · rw [i6, deletedNodeIds_deleteNode, deletedNodeIds_hide]
        simp

/-- A missing node stays missing across `createTextNode`. -/
theorem getNode_createTextNode_none (d : Doc) (ty : String) (c : List Char) (x : String)
    (h : d.getNode x = none) (hx : x ≠ "n" ++ toString d.nextId) :
    ((d.createTextNode ty c).1).getNode x = none := by
  show (d.nodes ++ [DNode.text ("n" ++ toString d.nextId) ty c]).find?
      (fun n => n.nid == x) = none
  have h' : d.nodes.find? (fun n => n.nid == x) = none := h
  rw [List.find?_append, h', Option.none_or]
  have hne : (("n" ++ toString d.nextId : String) == x) = false :=
    beq_eq_false_iff_ne.mpr (fun he => hx he.symm)
  simp [DNode.nid, hne]

/-- `createTextNode` records no node deletion. -/
theorem deletedNodeIds_createTextNode (d : Doc) (ty : String) (c : List Char) :
    deletedNodeIds ((d.createTextNode ty c).1).ops = deletedNodeIds d.ops := by
  unfold Doc.createTextNode deletedNodeIds
  simp [List.filterMap_append]

/-- `show` records no node deletion. -/
theorem deletedNodeIds_show (d : Doc) (cid nodeId : String) (pos : Option Nat) :
    deletedNodeIds (ContainerEditing.show d cid nodeId pos).ops = deletedNodeIds d.ops := by
  unfold ContainerEditing.show deletedNodeIds
  simp [Doc.setContainerNodes, List.filterMap_append]

/-- `show` inserts into the addressed container's child list. -/
theorem getNode_show_self (d : Doc) (cid nodeId : String) (pos : Option Nat)
    (l0 : List String) (h : d.getNode cid = some (DNode.container cid l0)) :
    (ContainerEditing.show d cid nodeId pos).getNode cid =
      some (DNode.container cid (insertAt l0 (pos.getD l0.length) nodeId)) := by
  show (d.setContainerNodes cid
      (insertAt (d.containerNodes cid) (pos.getD (d.containerNodes cid).length) nodeId)
    ).getNode cid = _
  rw [containerNodes_eq d cid l0 h]
  exact getNode_setContainerNodes_self d cid _ l0 h

/-- `show` leaves other nodes untouched. -/
theorem getNode_show_ne (d : Doc) (cid nodeId : String) (pos : Option Nat) (x : String)
    (hx : x ≠ cid) :
    (ContainerEditing.show d cid nodeId pos).getNode x = d.getNode x := by
  show (d.setContainerNodes cid _).getNode x = _
  exact getNode_setContainerNodes_ne d cid _ x hx

/-- `createTextNode` bumps the id counter but `hide`/`deleteNode` do not; the
loop keeps it too (restated here for chaining). -/
theorem nextId_deleteInnerLoop (cid : String) :
    ∀ (i : Nat) (d : Doc), (deleteInnerLoop d cid 0 i).nextId = d.nextId := by
  intro i
  induction i with
  | zero => intro d; rw [deleteInnerLoop_zero]
  | succ n ih =>
      intro d
      rw [deleteInnerLoop_succ, ih, nextId_deleteNode, nextId_hide]

/-! ### Claim C3: deleteRange with both ends entirely selected -/

/-- Claim C3: for a container with children `a :: mids ++ [b]` (at least
three), a range starting on the first child and ending on the last, both
entirely selected, `deleteRange` deletes the first and last nodes, deletes
every child strictly between them in descending index order, inserts one fresh
default text node at the vacated start position, and returns a collapsed
property cursor at that node's start with offset 0. -/
theorem C3_deleteRange_bothEnds (d : Doc) (cid a b tya tyb : String) (ca cb : List Char)
    (mids : List String) (start stop : Coordinate) (noMerge : Bool)
    (h_container : d.getNode cid = some (DNode.container cid (a :: mids ++ [b])))
    (h_three : mids ≠ [])
    (h_nodup : (a :: mids ++ [b]).Nodup)
    (h_cid : cid ∉ a :: mids ++ [b])
    (h_first : d.getNode a = some (DNode.text a tya ca))
    (h_last : d.getNode b = some (DNode.text b tyb cb))
    (h_sa : start.getNodeId = a)
    (h_sb : stop.getNodeId = b)
    (h_fes : isEntirelySelected (DNode.text a tya ca) (some start) none = true)
    (h_les : isEntirelySelected (DNode.text b tyb cb) none (some stop) = true)
    (h_fresh : ∀ n ∈ d.nodes, n.nid ≠ "n" ++ toString d.nextId)
    (h_fresh_children : "n" ++ toString d.nextId ∉ a :: mids ++ [b]) :
    ∃ d4,
      ContainerEditing.deleteRange d cid start stop noMerge =
        .ok (d4, some (.property ["n" ++ toString d.nextId, "content"] 0 0 (some cid))) ∧
      d4.containerNodes cid = ["n" ++ toString d.nextId] ∧
      d4.getNode ("n" ++ toString d.nextId) =
        some (DNode.text ("n" ++ toString d.nextId) defaultTextType []) ∧
      (∀ x ∈ a :: mids ++ [b], d4.getNode x = none) ∧
      deletedNodeIds d4.ops = deletedNodeIds d.ops ++ [b] ++ mids.reverse ++ [a] := by
  -- unpack duplicate-freedom and disjointness
  have hcons := List.nodup_cons.mp h_nodup
  have happ := List.nodup_append.mp hcons.2
  have hb_mids : b ∉ mids := fun hm => happ.2.2 hm (List.mem_singleton.mpr rfl)
  have hab : a ≠ b := fun he =>
    hcons.1 (List.mem_append_right _ (List.mem_singleton.mpr he))
  have ha_mids : a ∉ mids := fun hm => hcons.1 (List.mem_append_left _ hm)
  have hb_not : b ∉ a :: mids := by
    intro hmem
    rcases List.mem_cons.mp hmem with hba | hbs
    · exact hab hba.symm
    · exact hb_mids hbs
  have hnd_ams : (a :: mids).Nodup := List.nodup_cons.mpr ⟨ha_mids, happ.1⟩
  have hcid_a : cid ≠ a := fun he => h_cid (he ▸ List.mem_cons_self a _)
  have hcid_b : cid ≠ b := fun he =>
    h_cid (List.mem_cons_of_mem a
      (List.mem_append_right _ (he ▸ List.mem_singleton.mpr rfl)))
  have hcm_ams : cid ∉ a :: mids := by
    intro hmem
    rcases List.mem_cons.mp hmem with hca | hcs
    · exact hcid_a hca
    · exact h_cid (List.mem_cons_of_mem a (List.mem_append_left _ hcs))
  -- child positions and node lookups
  have hpa : listPos (d.containerNodes cid) start.getNodeId = some 0 := by
    rw [containerNodes_eq d cid _ h_container, h_sa]
    exact listPos_cons_self a _
  have hpb : listPos (d.containerNodes cid) stop.getNodeId = some (mids.length + 1) := by
    rw [containerNodes_eq d cid _ h_container, h_sb]
    exact listPos_append_last (a :: mids) b hb_not
  have hga : d.getNode start.getNodeId = some (DNode.text a tya ca) := by
    rw [h_sa]; exact h_first
  have hgb : d.getNode stop.getNodeId = some (DNode.text b tyb cb) := by
    rw [h_sb]; exact h_last
  -- the document after deleting the last child
  have hd1_cid :
      (documentHelpers.deleteNode (ContainerEditing.hide d cid b) b).getNode cid =
        some (DNode.container cid (a :: mids)) := by
    have hp : listPos (a :: mids ++ [b]) b = some (mids.length + 1) :=
      listPos_append_last (a :: mids) b hb_not
    have hh := getNode_hide_self d cid b (a :: mids ++ [b]) (mids.length + 1)
      h_container hp
    have hrm : removeAt (a :: mids ++ [b]) (mids.length + 1) = a :: mids :=
      removeAt_append_last (a :: mids) b
    rw [hrm] at hh
    rw [getNode_deleteNode, if_neg hcid_b, hh]
  obtain ⟨j1, j2, j3, j4, j5, j6⟩ := deleteInnerLoop_spec mids
    (documentHelpers.deleteNode (ContainerEditing.hide d cid b) b) cid a
    hd1_cid hnd_ams hcm_ams
  set d1 := documentHelpers.deleteNode (ContainerEditing.hide d cid b) b with hd1_def
  set d2 := deleteInnerLoop d1 cid 0 mids.length with hd2_def
  set d3 := documentHelpers.deleteNode (ContainerEditing.hide d2 cid a) a with hd3_def
  -- facts about the document before the fresh node is created
  have hd3_cid : d3.getNode cid = some (DNode.container cid []) := by
    have hh := getNode_hide_self d2 cid a [a] 0 j1 (listPos_cons_self a [])
    rw [hd3_def, getNode_deleteNode, if_neg hcid_a, hh]
    rfl
  have hd3_next : d3.nextId = d.nextId := by
    rw [hd3_def, nextId_deleteNode, nextId_hide, j4, hd1_def, nextId_deleteNode,
      nextId_hide]
  have hd3_gone : ∀ x ∈ a :: mids ++ [b], d3.getNode x = none := by
    intro x hx
    rcases List.mem_cons.mp hx with hxa | hx2
    · subst hxa
      rw [hd3_def, getNode_deleteNode, if_pos rfl]
    · rcases List.mem_append.mp hx2 with hxm | hxb
      · have hx_a : x ≠ a := fun he => ha_mids (he ▸ hxm)
        have hx_c : x ≠ cid := fun he => hcm_ams (he ▸ List.mem_cons_of_mem a hxm)
        rw [hd3_def, getNode_deleteNode, if_neg hx_a,
          getNode_hide_ne d2 cid a x hx_c]
        exact j2 x hxm
      · have hxb2 : x = b := List.mem_singleton.mp hxb
        subst hxb2
        rw [hd3_def, getNode_deleteNode, if_neg (fun he => hab he.symm),
          getNode_hide_ne d2 cid a x hcid_b.symm, j3 x hb_mids hcid_b.symm,
          hd1_def, getNode_deleteNode, if_pos rfl]
  have hfr : FreshOk d3 ("n" ++ toString d.nextId) := by
    rw [hd3_def]
    apply freshOk_deleteNode
    apply freshOk_hide
    rw [hd2_def]
    apply freshOk_deleteInnerLoop
    rw [hd1_def]
    apply freshOk_deleteNode
    apply freshOk_hide
    exact h_fresh
  have hd3_ops : deletedNodeIds d3.ops = deletedNodeIds d.ops ++ [b] ++ mids.reverse ++ [a] := by
    rw [hd3_def, deletedNodeIds_deleteNode, deletedNodeIds_hide, j6, hd1_def,
      deletedNodeIds_deleteNode, deletedNodeIds_hide]
  -- reduce the deleteRange computation
  unfold ContainerEditing.deleteRange
  simp only [hpa, hpb]
  rw [if_neg (show ¬ ((0 : Nat) = mids.length + 1) by omega)]
  simp only [hga, hgb, DNode.nid, h_fes, h_les, eq_self_iff_true, if_true, and_self,
    Nat.add_sub_cancel]
  rw [← hd1_def, ← hd2_def, ← hd3_def]
  simp only [Doc.createDefaultTextNode]
  have hr2 : (d3.createTextNode defaultTextType []).2 = "n" ++ toString d.nextId := by
    show "n" ++ toString d3.nextId = _
    rw [hd3_next]
  simp only [hr2]
  refine ⟨_, rfl, ?_, ?_, ?_, ?_⟩
  · -- the container holds exactly the fresh node
    have hr1cid : (d3.createTextNode defaultTextType []).1.getNode cid =
        some (DNode.container cid []) :=
      getNode_createTextNode_old d3 _ _ cid _ hd3_cid
    have hsh := getNode_show_self (d3.createTextNode defaultTextType []).1 cid
      ("n" ++ toString d.nextId) (some 0) [] hr1cid
    have hsh2 : (ContainerEditing.show (d3.createTextNode defaultTextType []).1 cid
        ("n" ++ toString d.nextId) (some 0)).getNode cid =
        some (DNode.container cid ["n" ++ toString d.nextId]) := hsh
    exact containerNodes_eq _ cid _ hsh2
  · -- the fresh node is an empty default text node
    have hmemc := mem_of_getNode d cid _ h_container
    have hcidn : cid ≠ "n" ++ toString d.nextId := h_fresh _ hmemc
    rw [getNode_show_ne _ _ _ _ _ hcidn.symm]
    have hfr3 : ∀ n ∈ d3.nodes, n.nid ≠ "n" ++ toString d3.nextId := by
      rw [hd3_next]
      exact hfr
    have hnew := getNode_createTextNode_new d3 defaultTextType [] hfr3
    rw [hd3_next] at hnew
    exact hnew
  · -- every former child is deleted
    intro x hx
    have hx_cid : x ≠ cid := fun he => h_cid (he ▸ hx)
    have hx_new : x ≠ "n" ++ toString d.nextId := fun he => h_fresh_children (he ▸ hx)
    rw [getNode_show_ne _ _ _ _ _ hx_cid]
    apply getNode_createTextNode_none
    · exact hd3_gone x hx
    · rw [hd3_next]
      exact hx_new
  · -- the recorded deletions: last, inner children descending, first
    rw [deletedNodeIds_show, deletedNodeIds_createTextNode]
    exact hd3_ops

/-- A container with three text children, all of which a range from the start
of the first to the end of the last covers entirely. -/
def threeDoc : Doc :=
  { nodes := [DNode.container "c1" ["x", "y", "z"],
              DNode.text "x" "paragraph" "xx".toList,
              DNode.text "y" "paragraph" "yy".toList,
              DNode.text "z" "paragraph" "zz".toList]
    annos := []
    nextId := 0
    ops := [] }

/-- Witness for C3 on a three-child container fully covered by the range. -/
theorem C3_deleteRange_bothEnds_witness :
    ∃ d4,
      ContainerEditing.deleteRange threeDoc "c1" ⟨["x", "content"], 0⟩
          ⟨["z", "content"], 2⟩ false =
        .ok (d4, some (.property ["n0", "content"] 0 0 (some "c1"))) ∧
      d4.containerNodes "c1" = ["n0"] ∧
      d4.getNode "n0" = some (DNode.text "n0" defaultTextType []) ∧
      (∀ x ∈ ["x", "y", "z"], d4.getNode x = none) ∧
      deletedNodeIds d4.ops = deletedNodeIds threeDoc.ops ++ ["z"] ++ ["y"].reverse ++ ["x"] :=
  C3_deleteRange_bothEnds threeDoc "c1" "x" "z" "paragraph" "paragraph"
    "xx".toList "zz".toList ["y"] ⟨["x", "content"], 0⟩ ⟨["z", "content"], 2⟩ false
    (by decide) (by decide) (by decide) (by decide) (by decide) (by decide)
    rfl rfl (by decide) (by decide) (by decide) (by decide)

end Substance
